import Mathlib

/-!
Verification development for the image-export utility (`src/utils/convertToImage.ts`).

The TypeScript source is shallowly embedded over exact rationals (`ℚ`): JavaScript
numbers are modelled as rationals, so every arithmetic step of the source is mirrored
exactly and "floating tolerance" disappears.  The JavaScript `Infinity` sentinel used
in `clampRadiiCss` only ever occurs under a `Math.min(1, …)`, so it is replaced by the
neutral value `1`, which leaves the minimum unchanged.  Strings are Lean `String`s,
DOM documents are an explicit tree type, and the two external oracles (dom-to-image,
dom-to-svg) are parameters of the functions that call them.
-/

namespace ConvertToImage

/-- `CornerRadii` record from the source: four numeric corner radii. -/
structure CornerRadii where
  topLeft : ℚ
  topRight : ℚ
  bottomRight : ℚ
  bottomLeft : ℚ
deriving DecidableEq, Repr

/-- `Math.max(0, x)` applied to each radius at the top of `clampRadiiCss`
(`const tl = Math.max(0, r.topLeft || 0)`; the `|| 0` guards `NaN`, which has no
rational counterpart). -/
def posPart (x : ℚ) : ℚ := max 0 x

/-- One edge ratio of `clampRadiiCss`: `sum > 0 ? dim / sum : Infinity`.
`Infinity` is replaced by `1`, which is neutral under the enclosing `min 1 (…)`. -/
def edgeScale (dim sum : ℚ) : ℚ := if 0 < sum then dim / sum else 1

/-- The factor `f = Math.min(1, sTop, sBottom, sLeft, sRight)` of `clampRadiiCss`. -/
def shrinkFactor (r : CornerRadii) (width height : ℚ) : ℚ :=
  let tl := posPart r.topLeft
  let tr := posPart r.topRight
  let br := posPart r.bottomRight
  let bl := posPart r.bottomLeft
  let sTop := edgeScale width (tl + tr)
  let sBottom := edgeScale width (bl + br)
  let sLeft := edgeScale height (tl + bl)
  let sRight := edgeScale height (tr + br)
  min 1 (min (min sTop sBottom) (min sLeft sRight))

/-- `clampRadiiCss(r, width, height)`: clamp negative radii to `0`, then scale all
four radii by the single factor `f`. -/
def clampRadiiCss (r : CornerRadii) (width height : ℚ) : CornerRadii :=
  let f := shrinkFactor r width height
  ⟨posPart r.topLeft * f, posPart r.topRight * f,
   posPart r.bottomRight * f, posPart r.bottomLeft * f⟩

theorem posPart_nonneg (x : ℚ) : 0 ≤ posPart x := le_max_left 0 x

theorem posPart_eq_of_nonneg {x : ℚ} (h : 0 ≤ x) : posPart x = x := max_eq_right h

theorem shrinkFactor_le_one (r : CornerRadii) (w h : ℚ) : shrinkFactor r w h ≤ 1 := by
  simp only [shrinkFactor]
  exact min_le_left _ _

theorem edgeScale_nonneg {dim sum : ℚ} (hd : 0 ≤ dim) : 0 ≤ edgeScale dim sum := by
  unfold edgeScale
  split
  · exact div_nonneg hd (le_of_lt (by assumption))
  · exact zero_le_one

theorem shrinkFactor_nonneg (r : CornerRadii) {w h : ℚ} (hw : 0 ≤ w) (hh : 0 ≤ h) :
    0 ≤ shrinkFactor r w h := by
  simp only [shrinkFactor]
  exact le_min zero_le_one
    (le_min (le_min (edgeScale_nonneg hw) (edgeScale_nonneg hw))
      (le_min (edgeScale_nonneg hh) (edgeScale_nonneg hh)))

/-- If `f ≤ edgeScale dim sum`, `0 ≤ sum`, `0 ≤ dim` and `0 ≤ f`, then `sum * f ≤ dim`. -/
theorem mul_le_of_le_edgeScale {f dim sum : ℚ} (hs : 0 ≤ sum) (hd : 0 ≤ dim)
    (hf : 0 ≤ f) (hle : f ≤ edgeScale dim sum) : sum * f ≤ dim := by
  unfold edgeScale at hle
  rcases lt_or_eq_of_le hs with hpos | hzero
  · rw [if_pos hpos] at hle
    have := (le_div_iff hpos).mp hle
    linarith [this]
  · rw [← hzero]
    simpa using hd

theorem shrinkFactor_le_sTop (r : CornerRadii) (w h : ℚ) :
    shrinkFactor r w h ≤ edgeScale w (posPart r.topLeft + posPart r.topRight) := by
  simp only [shrinkFactor]
  exact le_trans (min_le_right _ _) (le_trans (min_le_left _ _) (min_le_left _ _))

theorem shrinkFactor_le_sBottom (r : CornerRadii) (w h : ℚ) :
    shrinkFactor r w h ≤ edgeScale w (posPart r.bottomLeft + posPart r.bottomRight) := by
  simp only [shrinkFactor]
  exact le_trans (min_le_right _ _) (le_trans (min_le_left _ _) (min_le_right _ _))

theorem shrinkFactor_le_sLeft (r : CornerRadii) (w h : ℚ) :
    shrinkFactor r w h ≤ edgeScale h (posPart r.topLeft + posPart r.bottomLeft) := by
  simp only [shrinkFactor]
  exact le_trans (min_le_right _ _) (le_trans (min_le_right _ _) (min_le_left _ _))

theorem shrinkFactor_le_sRight (r : CornerRadii) (w h : ℚ) :
    shrinkFactor r w h ≤ edgeScale h (posPart r.topRight + posPart r.bottomRight) := by
  simp only [shrinkFactor]
  exact le_trans (min_le_right _ _) (le_trans (min_le_right _ _) (min_le_right _ _))

/-- Core constraint lemma: with non-negative box dimensions, every adjacent pair of
clamped radii fits in its box dimension. -/
theorem clampRadiiCss_sums {r : CornerRadii} {w h : ℚ} (hw : 0 ≤ w) (hh : 0 ≤ h) :
    (clampRadiiCss r w h).topLeft + (clampRadiiCss r w h).topRight ≤ w ∧
    (clampRadiiCss r w h).bottomLeft + (clampRadiiCss r w h).bottomRight ≤ w ∧
    (clampRadiiCss r w h).topLeft + (clampRadiiCss r w h).bottomLeft ≤ h ∧
    (clampRadiiCss r w h).topRight + (clampRadiiCss r w h).bottomRight ≤ h := by
  have hf0 : 0 ≤ shrinkFactor r w h := shrinkFactor_nonneg r hw hh
  refine ⟨?_, ?_, ?_, ?_⟩
  · have := mul_le_of_le_edgeScale
      (add_nonneg (posPart_nonneg _) (posPart_nonneg _)) hw hf0
      (shrinkFactor_le_sTop r w h)
    simp only [clampRadiiCss]
    linarith [this]
  · have := mul_le_of_le_edgeScale
      (add_nonneg (posPart_nonneg _) (posPart_nonneg _)) hw hf0
      (shrinkFactor_le_sBottom r w h)
    simp only [clampRadiiCss]
    linarith [this]
  · have := mul_le_of_le_edgeScale
      (add_nonneg (posPart_nonneg _) (posPart_nonneg _)) hh hf0
      (shrinkFactor_le_sLeft r w h)
    simp only [clampRadiiCss]
    linarith [this]
  · have := mul_le_of_le_edgeScale
      (add_nonneg (posPart_nonneg _) (posPart_nonneg _)) hh hf0
      (shrinkFactor_le_sRight r w h)
    simp only [clampRadiiCss]
    linarith [this]

/-- With non-negative box dimensions every output radius is non-negative. -/
theorem clampRadiiCss_nonneg {r : CornerRadii} {w h : ℚ} (hw : 0 ≤ w) (hh : 0 ≤ h) :
    0 ≤ (clampRadiiCss r w h).topLeft ∧ 0 ≤ (clampRadiiCss r w h).topRight ∧
    0 ≤ (clampRadiiCss r w h).bottomRight ∧ 0 ≤ (clampRadiiCss r w h).bottomLeft := by
  have hf := shrinkFactor_nonneg r hw hh
  simp only [clampRadiiCss]
  exact ⟨mul_nonneg (posPart_nonneg _) hf, mul_nonneg (posPart_nonneg _) hf,
    mul_nonneg (posPart_nonneg _) hf, mul_nonneg (posPart_nonneg _) hf⟩

/-- If the (positive-part) radii already satisfy all four constraints, the factor is 1. -/
theorem shrinkFactor_eq_one {r : CornerRadii} {w h : ℚ}
    (h1 : posPart r.topLeft + posPart r.topRight ≤ w)
    (h2 : posPart r.bottomLeft + posPart r.bottomRight ≤ w)
    (h3 : posPart r.topLeft + posPart r.bottomLeft ≤ h)
    (h4 : posPart r.topRight + posPart r.bottomRight ≤ h) :
    shrinkFactor r w h = 1 := by
  have key : ∀ dim sum : ℚ, 0 ≤ sum → sum ≤ dim → 1 ≤ edgeScale dim sum := by
    intro dim sum hs hle
    unfold edgeScale
    split
    · rw [le_div_iff (by assumption)]
      linarith
    · exact le_refl 1
  have k1 := key w _ (add_nonneg (posPart_nonneg _) (posPart_nonneg _)) h1
  have k2 := key w _ (add_nonneg (posPart_nonneg _) (posPart_nonneg _)) h2
  have k3 := key h _ (add_nonneg (posPart_nonneg _) (posPart_nonneg _)) h3
  have k4 := key h _ (add_nonneg (posPart_nonneg _) (posPart_nonneg _)) h4
  simp only [shrinkFactor]
  exact min_eq_left (le_min (le_min k1 k2) (le_min k3 k4))

/-- The clamp operation expressed through `posPart` and `shrinkFactor` (definitional). -/
theorem clampRadiiCss_def (r : CornerRadii) (w h : ℚ) :
    clampRadiiCss r w h =
      ⟨posPart r.topLeft * shrinkFactor r w h, posPart r.topRight * shrinkFactor r w h,
       posPart r.bottomRight * shrinkFactor r w h, posPart r.bottomLeft * shrinkFactor r w h⟩ :=
  rfl

/-- Idempotence of the clamp for non-negative box dimensions (helper). -/
theorem clampRadiiCss_idem {r : CornerRadii} {w h : ℚ} (hw : 0 ≤ w) (hh : 0 ≤ h) :
    clampRadiiCss (clampRadiiCss r w h) w h = clampRadiiCss r w h := by
  obtain ⟨n1, n2, n3, n4⟩ := clampRadiiCss_nonneg (r := r) hw hh
  obtain ⟨s1, s2, s3, s4⟩ := clampRadiiCss_sums (r := r) hw hh
  set c := clampRadiiCss r w h with hc
  have p1 : posPart c.topLeft = c.topLeft := posPart_eq_of_nonneg n1
  have p2 : posPart c.topRight = c.topRight := posPart_eq_of_nonneg n2
  have p3 : posPart c.bottomRight = c.bottomRight := posPart_eq_of_nonneg n3
  have p4 : posPart c.bottomLeft = c.bottomLeft := posPart_eq_of_nonneg n4
  have hf : shrinkFactor c w h = 1 := by
    apply shrinkFactor_eq_one <;> simp only [p1, p2, p3, p4] <;> assumption
  rw [clampRadiiCss_def, hf, p1, p2, p3, p4, mul_one, mul_one, mul_one, mul_one]

/-- C1: for non-negative radii and non-negative box dimensions, `clampRadiiCss`
satisfies all four adjacent-sum constraints; the output is the input scaled by a
single uniform factor `0 ≤ f ≤ 1`, and `f = 1` when the input already satisfies
the constraints (so the ratio between the four corners is preserved). -/
theorem C1_clampRadiiCss_constraints_uniform (r : CornerRadii) (w h : ℚ)
    (hr : 0 ≤ r.topLeft ∧ 0 ≤ r.topRight ∧ 0 ≤ r.bottomRight ∧ 0 ≤ r.bottomLeft)
    (hw : 0 ≤ w) (hh : 0 ≤ h) :
    ((clampRadiiCss r w h).topLeft + (clampRadiiCss r w h).topRight ≤ w ∧
     (clampRadiiCss r w h).bottomLeft + (clampRadiiCss r w h).bottomRight ≤ w ∧
     (clampRadiiCss r w h).topLeft + (clampRadiiCss r w h).bottomLeft ≤ h ∧
     (clampRadiiCss r w h).topRight + (clampRadiiCss r w h).bottomRight ≤ h) ∧
    ∃ f : ℚ, 0 ≤ f ∧ f ≤ 1 ∧
      clampRadiiCss r w h =
        ⟨r.topLeft * f, r.topRight * f, r.bottomRight * f, r.bottomLeft * f⟩ ∧
      ((r.topLeft + r.topRight ≤ w ∧ r.bottomLeft + r.bottomRight ≤ w ∧
        r.topLeft + r.bottomLeft ≤ h ∧ r.topRight + r.bottomRight ≤ h) → f = 1) := by
  obtain ⟨h1, h2, h3, h4⟩ := hr
  refine ⟨clampRadiiCss_sums hw hh, shrinkFactor r w h,
    shrinkFactor_nonneg r hw hh, shrinkFactor_le_one r w h, ?_, ?_⟩
  · rw [clampRadiiCss_def, posPart_eq_of_nonneg h1, posPart_eq_of_nonneg h2,
      posPart_eq_of_nonneg h3, posPart_eq_of_nonneg h4]
  · intro ⟨c1, c2, c3, c4⟩
    apply shrinkFactor_eq_one <;>
      simp only [posPart_eq_of_nonneg h1, posPart_eq_of_nonneg h2,
        posPart_eq_of_nonneg h3, posPart_eq_of_nonneg h4] <;>
      assumption

theorem C1_witness :
    (clampRadiiCss ⟨48, 48, 48, 48⟩ 100 40).topLeft +
      (clampRadiiCss ⟨48, 48, 48, 48⟩ 100 40).topRight ≤ 100 :=
  (C1_clampRadiiCss_constraints_uniform ⟨48, 48, 48, 48⟩ 100 40
    (by norm_num) (by norm_num) (by norm_num)).1.1

/-- C7 counterexample: `clampRadiiCss` is not idempotent for every width and height.
With a negative width the first application produces negative radii (the shrink
factor is negative), which the second application clamps to `0`. -/
theorem C7_counterexample :
    clampRadiiCss (clampRadiiCss ⟨1, 1, 0, 0⟩ (-10) 10) (-10) 10 ≠
      clampRadiiCss ⟨1, 1, 0, 0⟩ (-10) 10 := by
  with_unfolding_all decide

/-- C7 (amended): `clampRadiiCss` is idempotent for all radii whenever the box
dimensions are non-negative. -/
theorem C7_clampRadiiCss_idempotent (r : CornerRadii) (w h : ℚ)
    (hw : 0 ≤ w) (hh : 0 ≤ h) :
    clampRadiiCss (clampRadiiCss r w h) w h = clampRadiiCss r w h :=
  clampRadiiCss_idem hw hh

theorem C7_witness :
    clampRadiiCss (clampRadiiCss ⟨48, 48, 48, 48⟩ 100 40) 100 40 =
      clampRadiiCss ⟨48, 48, 48, 48⟩ 100 40 :=
  C7_clampRadiiCss_idempotent ⟨48, 48, 48, 48⟩ 100 40 (by norm_num) (by norm_num)

/-- C8 counterexample: for a negative width the claimed output non-negativity
fails — `clampRadiiCss ⟨1,1,0,0⟩ (-10) 10` has `topLeft = -5 < 0` (the shrink
factor `width / topSum = -5` is below `0`, refuting "never below 0"). -/
theorem C8_counterexample : ¬ 0 ≤ (clampRadiiCss ⟨1, 1, 0, 0⟩ (-10) 10).topLeft := by
  with_unfolding_all decide

/-- C8 (amended): for non-negative box dimensions, `clampRadiiCss` is total,
treats negative radius inputs as `0` (via `posPart`), applies one uniform factor
`f` with `0 ≤ f ≤ 1`, and every output radius is `≥ 0`. -/
theorem C8_clampRadiiCss_total_nonneg (r : CornerRadii) (w h : ℚ)
    (hw : 0 ≤ w) (hh : 0 ≤ h) :
    (∃ f : ℚ, 0 ≤ f ∧ f ≤ 1 ∧
      clampRadiiCss r w h =
        ⟨posPart r.topLeft * f, posPart r.topRight * f,
         posPart r.bottomRight * f, posPart r.bottomLeft * f⟩) ∧
    0 ≤ (clampRadiiCss r w h).topLeft ∧ 0 ≤ (clampRadiiCss r w h).topRight ∧
    0 ≤ (clampRadiiCss r w h).bottomRight ∧ 0 ≤ (clampRadiiCss r w h).bottomLeft :=
  ⟨⟨shrinkFactor r w h, shrinkFactor_nonneg r hw hh, shrinkFactor_le_one r w h, rfl⟩,
   clampRadiiCss_nonneg hw hh⟩

theorem C8_witness :
    0 ≤ (clampRadiiCss ⟨-7, 3, 0, 5⟩ 100 40).topLeft :=
  (C8_clampRadiiCss_total_nonneg ⟨-7, 3, 0, 5⟩ 100 40 (by norm_num) (by norm_num)).2.1

/-! ## Numeric formatting (`formatSvgNumber`)

A JavaScript number is either finite (modelled as a rational) or one of the
non-finite values `NaN`, `+Infinity`, `-Infinity`. -/

/-- JavaScript number for the purposes of `Number.isFinite` dispatch. -/
inductive JSNum where
  | nan : JSNum
  | posInf : JSNum
  | negInf : JSNum
  | num (q : ℚ) : JSNum
deriving DecidableEq, Repr

/-- `Math.round(x)`: round half toward positive infinity. -/
def jsRound (q : ℚ) : ℤ := ⌊q + 1 / 2⌋

/-- The three decimal digits of `m % 1000`, most significant first — the digits
`toFixed(3)` prints after the decimal point. -/
def frac3Digits (m : ℕ) : List ℕ := [m / 100 % 10, m / 10 % 10, m % 10]

/-- The trailing-zero stripping performed by
`.replace(/\.0+$/, '').replace(/\.([0-9]*[1-9])0+$/, '.$1')` on the fraction digits. -/
def dropTrailingZeros (l : List ℕ) : List ℕ := (l.reverse.dropWhile (· == 0)).reverse

/-- Fraction digits rendered as a string. -/
def fracString (m : ℕ) : String :=
  String.mk ((dropTrailingZeros (frac3Digits m)).map Nat.digitChar)

/-- `formatSvgNumber(value)`: non-finite input maps to `"0"`; otherwise the value is
rounded to 3 decimals via `Math.round(value * 1000) / 1000` and printed either as a
plain integer (`Number.isInteger` branch) or via `toFixed(3)` with trailing zeros
stripped. -/
def formatSvgNumber : JSNum → String
  | .num q =>
    let k : ℤ := jsRound (q * 1000)
    if (1000 : ℤ) ∣ k then toString (k / 1000)
    else
      let sign := if k < 0 then "-" else ""
      let a := k.natAbs
      sign ++ toString (a / 1000) ++ "." ++ fracString (a % 1000)
  | _ => "0"

/-- Shorthand used by the rest of the pipeline, which only ever formats finite values. -/
def formatSvgNumberQ (q : ℚ) : String := formatSvgNumber (.num q)

theorem jsRound_intCast (z : ℤ) : jsRound (z : ℚ) = z := by
  unfold jsRound
  rw [add_comm, Int.floor_add_int]
  norm_num

set_option maxRecDepth 10000 in
/-- C9: `formatSvgNumber` (a) maps every integer-valued input to its plain integer
string, (b) strips trailing zeros (`12.100 ↦ "12.1"`), (c) depends only on the value
rounded to 3 decimal places, (d) never leaves a trailing zero among the printed
fraction digits, and (e) maps `NaN`, `+Infinity` and `-Infinity` to `"0"`. -/
theorem C9_formatSvgNumber :
    (∀ z : ℤ, formatSvgNumber (.num (z : ℚ)) = toString z) ∧
    formatSvgNumber (.num (121 / 10)) = "12.1" ∧
    (∀ q : ℚ,
      formatSvgNumber (.num q) =
        formatSvgNumber (.num ((jsRound (q * 1000) : ℚ) / 1000))) ∧
    (∀ m : Fin 1000, (dropTrailingZeros (frac3Digits m.val)).getLast?.getD 1 ≠ 0) ∧
    formatSvgNumber .nan = "0" ∧ formatSvgNumber .posInf = "0" ∧
    formatSvgNumber .negInf = "0" := by
  have key : ∀ q : ℚ, jsRound ((jsRound (q * 1000) : ℚ) / 1000 * 1000) = jsRound (q * 1000) := by
    intro q
    have h : ((jsRound (q * 1000) : ℚ) / 1000 * 1000) = (jsRound (q * 1000) : ℚ) := by
      field_simp
    rw [h, jsRound_intCast]
  refine ⟨?_, ?_, ?_, ?_, rfl, rfl, rfl⟩
  · intro z
    have hk : jsRound ((z : ℚ) * 1000) = 1000 * z := by
      have : ((z : ℚ) * 1000) = ((1000 * z : ℤ) : ℚ) := by push_cast; ring
      rw [this, jsRound_intCast]
    simp only [formatSvgNumber, hk, Dvd.intro z rfl, if_pos, Int.mul_ediv_cancel_left _ (by norm_num : (1000:ℤ) ≠ 0)]
  · with_unfolding_all decide
  · intro q
    simp only [formatSvgNumber, key]
  · with_unfolding_all decide

/-! ## JavaScript numeric string parsing (`parseFloat`)

`parseFloat` is modelled as `Option ℚ`: `none` stands for a non-finite result
(`NaN` or `±Infinity`).  Every call site in the source immediately guards the
result with `Number.isFinite`, so the two non-finite outcomes never need to be
distinguished. -/

/-- ASCII whitespace skipped by `parseFloat`. -/
def isWsChar (c : Char) : Bool :=
  c == ' ' || c == '\t' || c == '\n' || c == '\r' || c == '\x0b' || c == '\x0c'

/-- Digit value of an ASCII digit. -/
def digitVal (c : Char) : ℕ := c.toNat - 48

/-- Consume a maximal run of decimal digits, returning `(value, count, rest)`. -/
def takeDigits : List Char → ℕ × ℕ × List Char
  | [] => (0, 0, [])
  | c :: cs =>
    if c.isDigit then
      let (v, n, rest) := takeDigits cs
      (digitVal c * 10 ^ n + v, n + 1, rest)
    else (0, 0, c :: cs)

/-- `10^e` for an integer exponent. -/
def pow10 (e : ℤ) : ℚ := if 0 ≤ e then (10 : ℚ) ^ e.toNat else 1 / (10 : ℚ) ^ (-e).toNat

/-- Optional exponent part `e[+-]?digits` of a JavaScript float literal; returns
the exponent and the remaining characters (the `e` is not consumed when no digit
follows it). -/
def parseExp (l : List Char) : ℤ × List Char :=
  if l.head? == some 'e' || l.head? == some 'E' then
    let rest := l.tail
    let (sgn, r1) : ℤ × List Char :=
      if rest.head? == some '-' then (-1, rest.tail)
      else if rest.head? == some '+' then (1, rest.tail)
      else (1, rest)
    let (v, n, r2) := takeDigits r1
    if n = 0 then (0, l) else (sgn * v, r2)
  else (0, l)

/-- The number-eating core of `parseFloat` after whitespace skipping. -/
def parseFloatChars (l : List Char) : Option ℚ :=
  let (sign, l1) : ℚ × List Char :=
    match l with
    | '-' :: r => (-1, r)
    | '+' :: r => (1, r)
    | _ => (1, l)
  if ("Infinity".toList).isPrefixOf l1 then none
  else
    let (ip, ic, l2) := takeDigits l1
    let (fp, fc, l3) :=
      match l2 with
      | '.' :: r => takeDigits r
      | _ => (0, 0, l2)
    if ic = 0 ∧ fc = 0 then none
    else
      let mant : ℚ := (ip : ℚ) + (fp : ℚ) / 10 ^ fc
      let (ex, _) := parseExp l3
      some (sign * mant * pow10 ex)

/-- `parseFloat(s)`, as `Option ℚ` (`none` = non-finite). Trailing garbage is
ignored, exactly as in JavaScript. -/
def jsParseFloat (s : String) : Option ℚ := parseFloatChars (s.toList.dropWhile isWsChar)

/-! ## Options, element model and export preparation -/

/-- A `width`/`height` option value: `number | string`. -/
inductive DimValue where
  | num (q : ℚ) : DimValue
  | str (s : String) : DimValue
deriving DecidableEq, Repr

/-- The `Options` record of dom-to-image, restricted to the fields the source
reads or writes. A missing field is `none`. -/
structure JSOptions where
  width : Option DimValue := none
  height : Option DimValue := none
  quality : Option ℚ := none
  style : Option (List (String × String)) := none
deriving DecidableEq, Repr

/-- `defaultOptions = { width: 400, height: 400 }`. -/
def defaultOptions : JSOptions :=
  { width := some (.num 400), height := some (.num 400) }

/-- `parseDimension(value)`: positive finite number (or numeric string) or `null`. -/
def parseDimension : Option DimValue → Option ℚ
  | some (.num q) => if 0 < q then some q else none
  | some (.str s) =>
    match jsParseFloat s with
    | some p => if 0 < p then some p else none
    | none => none
  | none => none

/-- The four computed border-radius strings read via `getComputedStyle`. -/
structure ComputedStyle where
  borderTopLeftRadius : Option String := none
  borderTopRightRadius : Option String := none
  borderBottomRightRadius : Option String := none
  borderBottomLeftRadius : Option String := none
deriving DecidableEq, Repr

/-- `getBoundingClientRect()` result. -/
structure DOMRectModel where
  x : ℚ
  y : ℚ
  width : ℚ
  height : ℚ
deriving DecidableEq, Repr

/-- The facets of a DOM element that `getExportPreparation` reads.
`computedStyle = none` models the `typeof window === 'undefined'` branch and
`boundingClientRect = none` the absence of `getBoundingClientRect`. -/
structure ElementModel where
  offsetWidth : ℚ
  offsetHeight : ℚ
  computedStyle : Option ComputedStyle := none
  boundingClientRect : Option DOMRectModel := none
deriving DecidableEq, Repr

def DEFAULT_RADIUS : ℚ := 48

/-- `parseRadiusValue(value)`: `null` for missing/empty input or non-finite parse. -/
def parseRadiusValue : Option String → Option ℚ
  | none => none
  | some s => if s = "" then none else jsParseFloat s

/-- `getCornerRadii(element, fallbackRadius)`. -/
def getCornerRadii (element : ElementModel) (fallbackRadius : Option String) : CornerRadii :=
  let fallbackValue := (parseRadiusValue fallbackRadius).getD DEFAULT_RADIUS
  let cs := element.computedStyle
  { topLeft := (parseRadiusValue (cs.bind (·.borderTopLeftRadius))).getD fallbackValue
    topRight := (parseRadiusValue (cs.bind (·.borderTopRightRadius))).getD fallbackValue
    bottomRight := (parseRadiusValue (cs.bind (·.borderBottomRightRadius))).getD fallbackValue
    bottomLeft := (parseRadiusValue (cs.bind (·.borderBottomLeftRadius))).getD fallbackValue }

/-- Stand-in for JavaScript float-to-string conversion on values that the claims
never inspect textually (the `scale(${s})` template). Integer values print
exactly as in JavaScript; other rationals use a `num/den` placeholder. -/
def jsNumToString (q : ℚ) : String :=
  if q.den = 1 then toString q.num else toString q.num ++ "/" ++ toString q.den

/-- `formatRadiusValue(value)`: clamp below by 0, round to 3 decimals, print, append `px`. -/
def formatRadiusValue (value : ℚ) : String :=
  formatSvgNumberQ (max value 0) ++ "px"

/-- `areRadiiEqual(radii)`. -/
def areRadiiEqual (radii : CornerRadii) : Bool :=
  decide (radii.topLeft = radii.topRight) && decide (radii.topLeft = radii.bottomRight) &&
    decide (radii.topLeft = radii.bottomLeft)

/-- `buildClipPathValue(radii)`: CSS `inset(0 round …)` shorthand. -/
def buildClipPathValue (radii : CornerRadii) : String :=
  let formatted := [radii.topLeft, radii.topRight, radii.bottomRight, radii.bottomLeft].map
    formatRadiusValue
  if areRadiiEqual radii then "inset(0 round " ++ formatted.headD "" ++ ")"
  else "inset(0 round " ++ String.intercalate " " formatted ++ ")"

/-- Object-literal style maps (`Record<string, string>`): set replaces in place or appends. -/
def objSet (m : List (String × String)) (k v : String) : List (String × String) :=
  if m.any (·.1 == k) then m.map (fun p => if p.1 == k then (k, v) else p) else m ++ [(k, v)]

def objGet (m : List (String × String)) (k : String) : Option String :=
  (m.find? (·.1 == k)).map (·.2)

def objDelete (m : List (String × String)) (k : String) : List (String × String) :=
  m.filter (fun p => !(p.1 == k))

/-- `getResizeScaleToFit(child, width, height)` (the transform-origin save/restore is a
DOM side effect with no bearing on the returned value). -/
def getResizeScaleToFit (child : ElementModel) (width height : ℚ) : ℚ :=
  let childWidth := child.offsetWidth
  let childHeight := child.offsetHeight
  if childWidth = 0 ∨ childHeight = 0 then 1
  else
    let maxScale := min (width / childWidth) (height / childHeight)
    if 0 < maxScale then maxScale else 1

/-- The `ExportPreparation` record. -/
structure ExportPreparation where
  options : JSOptions
  radii : CornerRadii
  outputRadii : CornerRadii
  clipRadii : CornerRadii
  width : ℚ
  height : ℚ
  sourceWidth : ℚ
  sourceHeight : ℚ
  sourceX : ℚ
  sourceY : ℚ
  scale : ℚ
deriving DecidableEq, Repr

/-- Shared style-override block: the four explicit corner properties, the
consolidated `borderRadius` shorthand and both `clip-path` variants. -/
def applyRadiusStyle (style : List (String × String)) (clamped : CornerRadii) :
    List (String × String) :=
  let s1 := objSet style "borderTopLeftRadius" (formatRadiusValue clamped.topLeft)
  let s2 := objSet s1 "borderTopRightRadius" (formatRadiusValue clamped.topRight)
  let s3 := objSet s2 "borderBottomRightRadius" (formatRadiusValue clamped.bottomRight)
  let s4 := objSet s3 "borderBottomLeftRadius" (formatRadiusValue clamped.bottomLeft)
  let radiiValues := [formatRadiusValue clamped.topLeft, formatRadiusValue clamped.topRight,
    formatRadiusValue clamped.bottomRight, formatRadiusValue clamped.bottomLeft]
  let allEqual := radiiValues.all (· == radiiValues.headD "")
  let s5 := objSet s4 "borderRadius"
    (if allEqual then radiiValues.headD "" else String.intercalate " " radiiValues)
  let clipPathValue := buildClipPathValue clamped
  objSet (objSet s5 "clipPath" clipPathValue) "webkitClipPath" clipPathValue

/-- `getExportPreparation(element, options, borderRadius)`. -/
def getExportPreparation (element : ElementModel) (options : JSOptions)
    (borderRadius : Option String) : ExportPreparation :=
  let requestedWidth := parseDimension options.width
  let requestedHeight := parseDimension options.height
  -- `element.offsetWidth || defaultOptions.width || 1` (`defaultOptions.width = 400` is truthy)
  let fallbackWidth := if element.offsetWidth = 0 then (400 : ℚ) else element.offsetWidth
  let fallbackHeight := if element.offsetHeight = 0 then (400 : ℚ) else element.offsetHeight
  let targetWidth := requestedWidth.getD fallbackWidth
  let targetHeight := requestedHeight.getD fallbackHeight
  let radii := getCornerRadii element borderRadius
  let bounds := element.boundingClientRect.getD ⟨0, 0, targetWidth, targetHeight⟩
  let sourceWidth := if bounds.width = 0 then targetWidth else bounds.width
  let sourceHeight := if bounds.height = 0 then targetHeight else bounds.height
  let sourceX := bounds.x
  let sourceY := bounds.y
  match requestedWidth, requestedHeight with
  | some reqW, some reqH =>
    let scale := getResizeScaleToFit element reqW reqH
    let safeScale := if 0 < scale then scale else 1
    let scaledRadii : CornerRadii :=
      ⟨radii.topLeft / safeScale, radii.topRight / safeScale,
       radii.bottomRight / safeScale, radii.bottomLeft / safeScale⟩
    let previewWidth := reqW / safeScale
    let previewHeight := reqH / safeScale
    let scaledClamped := clampRadiiCss scaledRadii previewWidth previewHeight
    let outputRadii := clampRadiiCss
      ⟨radii.topLeft * safeScale, radii.topRight * safeScale,
       radii.bottomRight * safeScale, radii.bottomLeft * safeScale⟩ reqW reqH
    let style0 := options.style.getD []
    let style1 := objSet style0 "transform" ("scale(" ++ jsNumToString safeScale ++ ")")
    let style2 := objSet style1 "transformOrigin" "left top"
    let style3 := objSet style2 "overflow" "hidden"
    let styleF := applyRadiusStyle style3 scaledClamped
    { radii := radii
      outputRadii := outputRadii
      clipRadii := scaledClamped
      width := reqW
      height := reqH
      sourceWidth := sourceWidth
      sourceHeight := sourceHeight
      sourceX := sourceX
      sourceY := sourceY
      scale := safeScale
      options :=
        { quality := some (options.quality.getD 100)
          width := some (.num reqW)
          height := some (.num reqH)
          style := some styleF } }
  | _, _ =>
    let style0 := options.style.getD []
    let style1 := objSet style0 "overflow" "hidden"
    let radiiClamped := clampRadiiCss radii targetWidth targetHeight
    let styleF := applyRadiusStyle style1 radiiClamped
    { radii := radii
      outputRadii := radiiClamped
      clipRadii := radiiClamped
      width := targetWidth
      height := targetHeight
      sourceWidth := sourceWidth
      sourceHeight := sourceHeight
      sourceX := sourceX
      sourceY := sourceY
      scale := 1
      options :=
        { quality := some (options.quality.getD 100)
          width := some (.num targetWidth)
          height := some (.num targetHeight)
          style := some styleF } }

/-- Sample element used by concrete counterexamples and witnesses. -/
def sampleElement : ElementModel :=
  { offsetWidth := 300, offsetHeight := 300 }

/-- C4 counterexample: a caller-supplied `quality` is NOT overridden to 100 — the
object spread `{ quality: 100, ...options, … }` lets the caller value win, so a
call with `quality: 50` yields a preparation whose options carry `quality = 50`. -/
theorem C4_counterexample :
    (getExportPreparation sampleElement { quality := some 50 } none).options.quality ≠
      some 100 := by
  with_unfolding_all decide

/-- C4 (amended): the prepared options' `quality` is the caller-supplied value when
present and `100` otherwise — in both the scaled and the unscaled branch. -/
theorem C4_quality_default (element : ElementModel) (options : JSOptions)
    (borderRadius : Option String) :
    (getExportPreparation element options borderRadius).options.quality =
      some (options.quality.getD 100) := by
  unfold getExportPreparation
  cases parseDimension options.width <;> cases parseDimension options.height <;> rfl

/-! ## Raster pipeline fallback (`renderRoundedImageBlob`) -/

/-- A blob: MIME type plus opaque content. -/
structure Blob where
  btype : String
  content : ℕ
deriving DecidableEq, Repr

/-- Result record `{ blob, width, height }` of `renderRoundedImageBlob`. -/
structure RenderResult where
  blob : Blob
  width : ℚ
  height : ℚ
deriving DecidableEq, Repr

/-- `renderRoundedImageBlob(element, options, borderRadius, outputMimeType)`.

The two asynchronous collaborators are passed as function parameters:
`toBlob` is `domtoimage.toBlob` (awaited outside any `try`, so its failure
propagates) and `paint` is `paintBlobWithRoundedCorners` (inside `try`; on any
failure the `catch` branch returns the unrounded base blob with the
preparation's dimensions). -/
def renderRoundedImageBlob (element : ElementModel) (options : JSOptions)
    (borderRadius : Option String) (outputMimeType : Option String)
    (toBlob : JSOptions → Except String Blob)
    (paint : Blob → CornerRadii → ℚ → ℚ → Option String → Except String Blob) :
    Except String RenderResult :=
  let preparation := getExportPreparation element options borderRadius
  match toBlob preparation.options with
  | .error e => .error e
  | .ok baseBlob =>
    match paint baseBlob preparation.outputRadii preparation.width preparation.height
        (some (outputMimeType.getD baseBlob.btype)) with
    | .ok roundedBlob => .ok ⟨roundedBlob, preparation.width, preparation.height⟩
    | .error _ => .ok ⟨baseBlob, preparation.width, preparation.height⟩

/-- C3: if the base rasterization succeeds and the rounded-corner repaint fails for
any reason, `renderRoundedImageBlob` resolves with the unrounded base blob together
with the preparation's width and height; and the overall export fails only when the
base rasterization itself fails. -/
theorem C3_renderRounded_fallback (element : ElementModel) (options : JSOptions)
    (borderRadius : Option String) (outputMimeType : Option String)
    (toBlob : JSOptions → Except String Blob)
    (paint : Blob → CornerRadii → ℚ → ℚ → Option String → Except String Blob) :
    (∀ baseBlob err,
      toBlob (getExportPreparation element options borderRadius).options = .ok baseBlob →
      paint baseBlob (getExportPreparation element options borderRadius).outputRadii
        (getExportPreparation element options borderRadius).width
        (getExportPreparation element options borderRadius).height
        (some (outputMimeType.getD baseBlob.btype)) = .error err →
      renderRoundedImageBlob element options borderRadius outputMimeType toBlob paint =
        .ok ⟨baseBlob, (getExportPreparation element options borderRadius).width,
          (getExportPreparation element options borderRadius).height⟩) ∧
    (∀ e, renderRoundedImageBlob element options borderRadius outputMimeType toBlob paint =
        .error e →
      toBlob (getExportPreparation element options borderRadius).options = .error e) := by
  constructor
  · intro baseBlob err h1 h2
    simp only [renderRoundedImageBlob, h1, h2]
  · intro e he
    simp only [renderRoundedImageBlob] at he
    rcases h : toBlob (getExportPreparation element options borderRadius).options with e' | b
    · simp only [h] at he
      simpa using he
    · simp only [h] at he
      rcases hp : paint b (getExportPreparation element options borderRadius).outputRadii
          (getExportPreparation element options borderRadius).width
          (getExportPreparation element options borderRadius).height
          (some (outputMimeType.getD b.btype)) with e'' | rb <;>
        simp only [hp] at he <;> exact absurd he (by simp)

theorem C3_witness :
    renderRoundedImageBlob sampleElement {} none none
      (fun _ => .ok ⟨"image/png", 7⟩) (fun _ _ _ _ _ => .error "decode failed") =
      .ok ⟨⟨"image/png", 7⟩, (getExportPreparation sampleElement {} none).width,
        (getExportPreparation sampleElement {} none).height⟩ :=
  (C3_renderRounded_fallback sampleElement {} none none
      (fun _ => .ok ⟨"image/png", 7⟩) (fun _ _ _ _ _ => .error "decode failed")).1
    ⟨"image/png", 7⟩ "decode failed" rfl rfl

/-! ## DOM / SVG document model

`XNode.elem` carries the tag, the attribute list (`getAttribute`/`setAttribute`
order-preserving semantics via `objSet`), the CSSOM `style` property map written
through `element.style.x = …`, and the child-node list (`childNodes`; element
children are the `.elem` entries). -/

inductive XNode where
  | elem (tag : String) (attrs : List (String × String))
      (styleProps : List (String × String)) (children : List XNode)
  | text (s : String)

/-- `element.tagName` (empty for text nodes, which never reach tag dispatch). -/
def XNode.tagName : XNode → String
  | .elem t _ _ _ => t
  | .text _ => ""

/-- `getAttribute`, `null` for text nodes and missing attributes. -/
def XNode.getAttr : XNode → String → Option String
  | .elem _ attrs _ _, k => objGet attrs k
  | .text _, _ => none

/-- `setAttribute` (replaces in place, or appends). -/
def XNode.setAttr : XNode → String → String → XNode
  | .elem t attrs sp c, k, v => .elem t (objSet attrs k v) sp c
  | .text s, _, _ => .text s

/-- `removeAttribute`. -/
def XNode.removeAttr : XNode → String → XNode
  | .elem t attrs sp c, k => .elem t (objDelete attrs k) sp c
  | .text s, _ => .text s

/-- `hasAttribute`. -/
def XNode.hasAttr (n : XNode) (k : String) : Bool := (n.getAttr k).isSome

/-- `childNodes`. -/
def XNode.childNodes : XNode → List XNode
  | .elem _ _ _ c => c
  | .text _ => []

def XNode.isElem : XNode → Bool
  | .elem _ _ _ _ => true
  | .text _ => false

/-- First *element* child whose lowercased tag is `defs`
(`Array.from(svgElement.children).find(c => c.tagName.toLowerCase() === 'defs')`),
as an index into `childNodes` so that removal is by node identity. -/
def XNode.isDefsElem : XNode → Bool
  | .elem t _ _ _ => t.toLower == "defs"
  | .text _ => false

/-- `appendChild`. -/
def XNode.appendChild : XNode → XNode → XNode
  | .elem t attrs sp c, n => .elem t attrs sp (c ++ [n])
  | .text s, _ => .text s

/-- JavaScript `split(/\s+/)` on a character list: split at maximal whitespace
runs; a leading (or trailing) run produces a leading (or trailing) empty chunk. -/
def splitWs (l : List Char) : List (List Char) :=
  match l with
  | [] => [[]]
  | c :: cs =>
    if isWsChar c then [] :: splitWs (cs.dropWhile isWsChar)
    else
      match splitWs cs with
      | [] => [[c]]
      | chunk :: rest => (c :: chunk) :: rest
termination_by l.length
decreasing_by
  · exact Nat.lt_succ_of_le (List.dropWhile_sublist _).length_le
  · simp

/-! ## SVG clip-path generation (`createRoundedRectPathData`, `applySvgOptions`) -/

/-- `createRoundedRectPathData(radii, width, height, offsetX, offsetY)`. -/
def createRoundedRectPathData (radii : CornerRadii) (width height offsetX offsetY : ℚ) :
    String :=
  let clamped := clampRadiiCss radii width height
  let tl := max 0 clamped.topLeft
  let tr := max 0 clamped.topRight
  let br := max 0 clamped.bottomRight
  let bl := max 0 clamped.bottomLeft
  let f := formatSvgNumberQ
  let startX := offsetX + tl
  let startY := offsetY
  let commands : List String :=
    ["M " ++ f startX ++ " " ++ f startY] ++
    ["H " ++ f (offsetX + width - tr)] ++
    (if 0 < tr then
      ["A " ++ f tr ++ " " ++ f tr ++ " 0 0 1 " ++ f (offsetX + width) ++ " " ++
        f (offsetY + tr)]
    else []) ++
    ["V " ++ f (offsetY + height - br)] ++
    (if 0 < br then
      ["A " ++ f br ++ " " ++ f br ++ " 0 0 1 " ++ f (offsetX + width - br) ++ " " ++
        f (offsetY + height)]
    else []) ++
    ["H " ++ f (offsetX + bl)] ++
    (if 0 < bl then
      ["A " ++ f bl ++ " " ++ f bl ++ " 0 0 1 " ++ f offsetX ++ " " ++
        f (offsetY + height - bl)]
    else []) ++
    ["V " ++ f (offsetY + tl)] ++
    (if 0 < tl then
      ["A " ++ f tl ++ " " ++ f tl ++ " 0 0 1 " ++ f (offsetX + tl) ++ " " ++ f startY]
    else []) ++
    ["Z"]
  String.intercalate " " commands

/-- The style keys deleted from `options.style` before it is copied onto the SVG root. -/
def rasterOnlyStyleKeys : List String :=
  ["transform", "transformOrigin", "borderRadius", "borderTopLeftRadius",
   "borderTopRightRadius", "borderBottomRightRadius", "borderBottomLeftRadius",
   "clipPath", "webkitClipPath"]

/-- `applySvgOptions(svgDocument, preparation)`.  The module-level
`clipPathIdCounter` is threaded as the `clipPathIdCounter` argument: the id used
is `export-rounded-clip-(counter+1)`. -/
def applySvgOptions (clipPathIdCounter : ℕ) (svgElement : XNode)
    (preparation : ExportPreparation) : XNode :=
  match svgElement with
  | .text s => .text s
  | .elem tag attrs styleProps children =>
    let parsedViewBox : List (Option ℚ) :=
      match objGet attrs "viewBox" with
      | some vb =>
        -- `viewBoxAttr ? viewBoxAttr.split(/\s+/).map(parseFloat) : []` ("" is falsy)
        if vb = "" then []
        else (splitWs vb.toList).map (fun chunk => jsParseFloat (String.mk chunk))
      | none => []
    let viewBoxX := ((parsedViewBox.get? 0).join).getD preparation.sourceX
    let viewBoxY := ((parsedViewBox.get? 1).join).getD preparation.sourceY
    let viewBoxW0 := ((parsedViewBox.get? 2).join).getD preparation.sourceWidth
    let viewBoxH0 := ((parsedViewBox.get? 3).join).getD preparation.sourceHeight
    let viewBoxWidth := if viewBoxW0 ≤ 0 then preparation.sourceWidth else viewBoxW0
    let viewBoxHeight := if viewBoxH0 ≤ 0 then preparation.sourceHeight else viewBoxH0
    let a1 := objSet attrs "width" (jsNumToString preparation.width)
    let a2 := objSet a1 "height" (jsNumToString preparation.height)
    let a3 := objSet a2 "viewBox"
      (formatSvgNumberQ viewBoxX ++ " " ++ formatSvgNumberQ viewBoxY ++ " " ++
        formatSvgNumberQ viewBoxWidth ++ " " ++ formatSvgNumberQ viewBoxHeight)
    let a4 := objSet a3 "preserveAspectRatio" "xMidYMid meet"
    let sp1 :=
      match preparation.options.style with
      | some st =>
        let cleaned := rasterOnlyStyleKeys.foldl objDelete st
        cleaned.foldl (fun acc kv => objSet acc kv.1 kv.2) styleProps
      | none => styleProps
    let sp2 := objSet (objSet sp1 "clipPath" "") "webkitClipPath" ""
    let hasRoundedCorner :=
      0 < preparation.clipRadii.topLeft ∨ 0 < preparation.clipRadii.topRight ∨
      0 < preparation.clipRadii.bottomRight ∨ 0 < preparation.clipRadii.bottomLeft
    if ¬hasRoundedCorner then
      .elem tag (objDelete a4 "clip-path") sp2 children
    else
      let clipPathId := "export-rounded-clip-" ++ toString (clipPathIdCounter + 1)
      let pathData := createRoundedRectPathData preparation.clipRadii viewBoxWidth
        viewBoxHeight viewBoxX viewBoxY
      let clipPathNode : XNode := .elem "clipPath"
        [("id", clipPathId), ("clipPathUnits", "userSpaceOnUse")] []
        [.elem "path" [("d", pathData)] [] []]
      match children.findIdx? XNode.isDefsElem with
      | some i =>
        let defsNode := (children.get? i).getD (.text "")
        let newDefs := defsNode.appendChild clipPathNode
        let nodesToWrap := children.eraseIdx i
        if nodesToWrap.isEmpty then
          .elem tag (objSet a4 "clip-path" ("url(#" ++ clipPathId ++ ")")) sp2 [newDefs]
        else
          .elem tag a4 sp2
            [newDefs, .elem "g" [("clip-path", "url(#" ++ clipPathId ++ ")")] [] nodesToWrap]
      | none =>
        let newDefs : XNode := .elem "defs" [] [] [clipPathNode]
        if children.isEmpty then
          .elem tag (objSet a4 "clip-path" ("url(#" ++ clipPathId ++ ")")) sp2 [newDefs]
        else
          .elem tag a4 sp2
            [newDefs, .elem "g" [("clip-path", "url(#" ++ clipPathId ++ ")")] [] children]

/-- Deleting a key removes it: `objGet (objDelete m k) k = none`. -/
theorem objGet_objDelete (m : List (String × String)) (k : String) :
    objGet (objDelete m k) k = none := by
  induction m with
  | nil => rfl
  | cons p t ih =>
    by_cases h : p.1 == k
    · simpa [objDelete, List.filter_cons, h] using ih
    · simpa [objDelete, objGet, List.filter_cons, List.find?_cons, h] using ih

/-- C5: `applySvgOptions` injects a rounded-corner clip construct iff some clamped
`clipRadii` corner is strictly positive.
(a) All corners `≤ 0`: the children are untouched (no `<clipPath>` or group is
added) and the root's `clip-path` attribute is removed/absent.
(b) Some corner positive, no `<defs>` child, non-empty children: a new `<defs>`
holding the generated `<clipPath>` is created and all former children move, in
order, into exactly one new `<g>` referencing the clip path.
(c) Some corner positive, existing `<defs>` at index `i`: the `<clipPath>` is
appended to that `<defs>` and all other children move, in order, into exactly
one new `<g>` referencing the clip path. -/
theorem C5_applySvgOptions_clip (counter : ℕ) (tag : String)
    (attrs styleProps : List (String × String)) (children : List XNode)
    (prep : ExportPreparation) :
    (¬(0 < prep.clipRadii.topLeft ∨ 0 < prep.clipRadii.topRight ∨
        0 < prep.clipRadii.bottomRight ∨ 0 < prep.clipRadii.bottomLeft) →
      (applySvgOptions counter (.elem tag attrs styleProps children) prep).childNodes =
          children ∧
        (applySvgOptions counter (.elem tag attrs styleProps children) prep).getAttr
          "clip-path" = none) ∧
    ((0 < prep.clipRadii.topLeft ∨ 0 < prep.clipRadii.topRight ∨
        0 < prep.clipRadii.bottomRight ∨ 0 < prep.clipRadii.bottomLeft) →
      children.findIdx? XNode.isDefsElem = none → children.isEmpty = false →
      ∃ pathData : String,
        (applySvgOptions counter (.elem tag attrs styleProps children) prep).childNodes =
          [.elem "defs" [] []
            [.elem "clipPath"
              [("id", "export-rounded-clip-" ++ toString (counter + 1)),
               ("clipPathUnits", "userSpaceOnUse")] []
              [.elem "path" [("d", pathData)] [] []]],
           .elem "g"
            [("clip-path", "url(#" ++ ("export-rounded-clip-" ++ toString (counter + 1)) ++ ")")]
            [] children]) ∧
    (∀ i : ℕ, (0 < prep.clipRadii.topLeft ∨ 0 < prep.clipRadii.topRight ∨
        0 < prep.clipRadii.bottomRight ∨ 0 < prep.clipRadii.bottomLeft) →
      children.findIdx? XNode.isDefsElem = some i →
      (children.eraseIdx i).isEmpty = false →
      ∃ (pathData : String) (defsNode : XNode),
        children.get? i = some defsNode ∧
        (applySvgOptions counter (.elem tag attrs styleProps children) prep).childNodes =
          [defsNode.appendChild
            (.elem "clipPath"
              [("id", "export-rounded-clip-" ++ toString (counter + 1)),
               ("clipPathUnits", "userSpaceOnUse")] []
              [.elem "path" [("d", pathData)] [] []]),
           .elem "g"
            [("clip-path", "url(#" ++ ("export-rounded-clip-" ++ toString (counter + 1)) ++ ")")]
            [] (children.eraseIdx i)]) := by
  refine ⟨?_, ?_, ?_⟩
  · intro hz
    simp only [applySvgOptions, if_pos hz]
    exact ⟨rfl, objGet_objDelete _ _⟩
  · intro hp hidx hne
    simp only [applySvgOptions, if_neg (not_not_intro hp), hidx, hne, Bool.false_eq_true,
      if_false, XNode.childNodes]
    exact ⟨_, rfl⟩
  · intro i hp hidx hne
    have hlt : i < children.length := (List.findIdx?_eq_some_iff_findIdx_eq.mp hidx).1
    rcases hget : children.get? i with _ | defsNode
    · rw [List.get?_eq_get hlt] at hget
      cases hget
    · simp only [applySvgOptions, if_neg (not_not_intro hp), hidx, hget, hne,
        Bool.false_eq_true, if_false, XNode.childNodes, Option.getD_some]
      exact ⟨_, defsNode, rfl, rfl⟩

theorem C5_witness :
    ∃ pathData : String,
      (applySvgOptions 0
        (.elem "svg" [] [] [.elem "rect" [] [] []])
        (getExportPreparation sampleElement {} none)).childNodes =
        [.elem "defs" [] []
          [.elem "clipPath"
            [("id", "export-rounded-clip-" ++ toString (0 + 1)),
             ("clipPathUnits", "userSpaceOnUse")] []
            [.elem "path" [("d", pathData)] [] []]],
         .elem "g"
          [("clip-path", "url(#" ++ ("export-rounded-clip-" ++ toString (0 + 1)) ++ ")")]
          [] [.elem "rect" [] [] []]] :=
  (C5_applySvgOptions_clip 0 "svg" [] [] [.elem "rect" [] [] []]
      (getExportPreparation sampleElement {} none)).2.1
    (Or.inl (by with_unfolding_all decide))
    (by with_unfolding_all rfl) rfl

/-! ## Legacy sanitisation: style declarations and CSS custom properties -/

/-- `LEGACY_STYLE_ATTRIBUTES` (insertion order of the source `Set`). -/
def LEGACY_STYLE_ATTRIBUTES : List String :=
  ["fill", "stroke", "stroke-width", "stroke-linecap", "stroke-linejoin",
   "stroke-miterlimit", "stroke-dasharray", "stroke-dashoffset", "fill-opacity",
   "fill-rule", "clip-rule", "stroke-opacity", "opacity", "transform", "font-size",
   "font-family", "font-weight", "font-style", "shape-rendering", "vector-effect",
   "text-anchor", "dominant-baseline", "letter-spacing", "word-spacing"]

/-- `PRESENTATION_ATTRIBUTES = Array.from(LEGACY_STYLE_ATTRIBUTES)`. -/
def PRESENTATION_ATTRIBUTES : List String := LEGACY_STYLE_ATTRIBUTES

/-- `parseStyleDeclarations(styleValue)`: split on `;`, trim, split each declaration
at its first `:`, lowercase the property, drop empty pieces. -/
def parseStyleDeclarations (styleValue : String) : List (String × String) :=
  (((styleValue.splitOn ";").map String.trim).filter (· ≠ "")).filterMap
    (fun declaration =>
      match declaration.toList.findIdx? (· == ':') with
      | none => none
      | some i =>
        let property := (String.mk (declaration.toList.take i)).trim.toLower
        let value := (String.mk (declaration.toList.drop (i + 1))).trim
        if property = "" ∨ value = "" then none else some (property, value))

/-- `value.includes('var(')`. -/
def hasVarCall : List Char → Bool
  | 'v' :: 'a' :: 'r' :: '(' :: _ => true
  | _ :: rest => hasVarCall rest
  | [] => false

def containsVar (s : String) : Bool := hasVarCall s.toList

/-- Characters matched by `[\w-]` (name part of a custom property). -/
def isWordHyphen (c : Char) : Bool := c.isAlphanum || c == '_' || c == '-'

/-- One segment of a string split along matches of
`/var\((--[\w-]+)(?:,\s*([^)]+))?\)/g`: a literal character or one match with its
captured name and optional captured fallback. -/
inductive VarSeg where
  | chr (c : Char)
  | varRef (name : String) (fallback : Option String)

/-- Try to match the `var(…)` pattern at the head of the character list; on
success return the captured name, the captured fallback and the rest. -/
def tryVarMatch (l : List Char) : Option (String × Option String × List Char) :=
  match l with
  | 'v' :: 'a' :: 'r' :: '(' :: rest =>
    match rest with
    | '-' :: '-' :: rest2 =>
      let nameChars := rest2.takeWhile isWordHyphen
      if nameChars.isEmpty then none
      else
        let name := "--" ++ String.mk nameChars
        match rest2.drop nameChars.length with
        | ')' :: rest3 => some (name, none, rest3)
        | ',' :: rest3 =>
          let afterWs := rest3.dropWhile isWsChar
          let fbChars := afterWs.takeWhile (· ≠ ')')
          if fbChars.isEmpty then none
          else
            match afterWs.drop fbChars.length with
            | ')' :: rest4 => some (name, some (String.mk fbChars), rest4)
            | _ => none
        | _ => none
    | _ => none
  | _ => none

/-- Split a character list into literal characters and `var(…)` matches, scanning
left to right exactly like a global regex replace (fuelled by the input length). -/
def varSegsAux : ℕ → List Char → List VarSeg
  | 0, _ => []
  | _, [] => []
  | fuel + 1, c :: cs =>
    match tryVarMatch (c :: cs) with
    | some (name, fb, rest) => .varRef name fb :: varSegsAux fuel rest
    | none => .chr c :: varSegsAux fuel cs

def varSegs (l : List Char) : List VarSeg := varSegsAux l.length l

/-- `resolveCssVariables(value, variables, depth)` with the recursion depth turned
into structural fuel `F = 11 - depth` (`MAX_CSS_VAR_DEPTH = 10`): the entry guard
`depth > 10` is `F = 0`, every recursive call at `depth + 1` is `F - 1`, and the
re-scan guard `depth < 10` is `0 < F - 1`. -/
def resolveCssVarsFuel : ℕ → String → List (String × String) → String
  | 0, value, _ => value
  | fuel + 1, value, vars =>
    if value = "" then value
    else if ¬containsVar value then value
    else
      let segs := varSegs value.toList
      let didReplace := segs.any (fun s => match s with | .varRef _ _ => true | .chr _ => false)
      let replaced := String.join (segs.map (fun s =>
        match s with
        | .chr c => String.singleton c
        | .varRef name fb =>
          match objGet vars name with
          | some r =>
            if r ≠ "" ∧ r ≠ name then resolveCssVarsFuel fuel r vars
            else
              match fb with
              | some f =>
                let cleaned := f.trim
                if cleaned ≠ "" then resolveCssVarsFuel fuel cleaned vars else ""
              | none => ""
          | none =>
            match fb with
            | some f =>
              let cleaned := f.trim
              if cleaned ≠ "" then resolveCssVarsFuel fuel cleaned vars else ""
            | none => ""))
      if ¬didReplace then replaced
      else if containsVar replaced ∧ 0 < fuel then resolveCssVarsFuel fuel replaced vars
      else replaced

/-- `resolveCssVariables(value, variables, depth = 0)`. -/
def resolveCssVariables (value : String) (varMap : List (String × String))
    (depth : ℕ := 0) : String :=
  resolveCssVarsFuel (11 - depth) value varMap

/-! ## Legacy sanitisation: tag removal and the style walk -/

def disallowedTags : List String :=
  ["defs", "style", "mask", "clipPath", "filter", "foreignObject", "image", "symbol", "use"]

/-- Wholesale removal of disallowed elements (and their subtrees), as performed by
the `getElementsByTagName`/`removeChild` loops.  The recursion is fuelled by
`sizeOf`, which strictly bounds the tree depth, so the `0` case is never reached. -/
def removeDisallowedTagsF : ℕ → XNode → XNode
  | 0, n => n
  | fuel + 1, .text s => .text s
  | fuel + 1, .elem t a sp children =>
    .elem t a sp ((children.filter (fun c =>
      match c with
      | .elem ct _ _ _ => ¬(disallowedTags.contains ct)
      | .text _ => true)).map (removeDisallowedTagsF fuel))

mutual
/-- Node count of a tree: a cheap strict upper bound on its depth, used as fuel. -/
def nodeSize : XNode → ℕ
  | .text _ => 1
  | .elem _ _ _ children => 1 + nodeSizeList children

def nodeSizeList : List XNode → ℕ
  | [] => 0
  | c :: rest => nodeSize c + nodeSizeList rest
end

def removeDisallowedTags (n : XNode) : XNode := removeDisallowedTagsF (nodeSize n) n

def attributesToRemove : List String := ["clip-path", "mask", "filter"]

/-- The two passes over one element's parsed `style` declarations: first collect
custom-property declarations into a copy of the inherited map (each resolved
against the evolving map), then write allow-listed, not-already-present
presentation declarations as literal attributes. Returns the updated attributes
(with `style` deleted) and the local variable map. -/
def processStyleValue (sv : String) (attrs1 : List (String × String))
    (inheritedVariables : List (String × String)) :
    List (String × String) × List (String × String) :=
  let declarations := parseStyleDeclarations sv
  let localVariables := declarations.foldl
    (fun acc pv =>
      if pv.1.startsWith "--" then objSet acc pv.1 (resolveCssVariables pv.2 acc) else acc)
    inheritedVariables
  let attrs2 := declarations.foldl
    (fun acc pv =>
      if pv.1.startsWith "--" then acc
      else if ¬(LEGACY_STYLE_ATTRIBUTES.contains pv.1) then acc
      else if (objGet acc pv.1).isSome then acc
      else
        let resolved := resolveCssVariables pv.2 localVariables
        if resolved ≠ "" then objSet acc pv.1 resolved else acc)
    attrs1
  (objDelete attrs2 "style", localVariables)

/-- The depth-first `walk(element, inheritedVariables)` of
`stripUnsupportedForLegacy`, fuelled by `sizeOf` (the `0` case is unreachable).
Only element children are walked (`Array.from(element.children)`); text nodes
stay in place untouched. -/
def legacyWalkF : ℕ → XNode → List (String × String) → XNode
  | 0, element, _ => element
  | _ + 1, .text s, _ => .text s
  | fuel + 1, .elem tag attrs sp children, inheritedVariables =>
    let attrs1 := attributesToRemove.foldl objDelete attrs
    let styleValue := objGet attrs1 "style"
    let processed :=
      match styleValue with
      | some sv => if sv = "" then none else some (processStyleValue sv attrs1 inheritedVariables)
      | none => none
    let attrsA := (processed.map Prod.fst).getD attrs1
    let activeVariables := (processed.map Prod.snd).getD inheritedVariables
    let attrsB := PRESENTATION_ATTRIBUTES.foldl
      (fun acc attributeName =>
        match objGet acc attributeName with
        | some v =>
          if v ≠ "" ∧ containsVar v then
            objSet acc attributeName (resolveCssVariables v activeVariables)
          else acc
        | none => acc)
      attrsA
    .elem tag attrsB sp (children.map (fun c =>
      match c with
      | .elem t a s2 ch => legacyWalkF fuel (.elem t a s2 ch) activeVariables
      | .text s => .text s))

def legacyWalk (element : XNode) (inheritedVariables : List (String × String)) : XNode :=
  legacyWalkF (nodeSize element) element inheritedVariables

/-- `stripUnsupportedForLegacy(svgDocument)`. -/
def stripUnsupportedForLegacy (svgDocument : XNode) : XNode :=
  legacyWalk (removeDisallowedTags svgDocument) []

/-- A chain of custom properties `--b0 ↦ var(--b1), …, --b(n-1) ↦ var(--bn), --bn ↦ done`. -/
def chainVars (n : ℕ) : List (String × String) :=
  (List.range n).map (fun i => ("--b" ++ toString i, "var(--b" ++ toString (i + 1) ++ ")")) ++
    [("--b" ++ toString n, "done")]

set_option maxRecDepth 100000 in
/-- C6: in the legacy style pass, (a) `style="fill:var(--c, red)"` with no `--c`
declared anywhere resolves to the literal attribute `fill="red"` and the `style`
attribute is deleted; (b) with an ancestor declaring `style="--c: blue"` the same
element instead receives `fill="blue"`; (c) a variable chain of 10 indirections
resolves fully; (d) past the depth limit (`depth > MAX_CSS_VAR_DEPTH = 10`) the
resolver returns every value unresolved; (e) an unresolved variable with no
fallback collapses to the empty string. -/
theorem C6_legacy_css_vars :
    stripUnsupportedForLegacy
        (.elem "svg" [] [] [.elem "rect" [("style", "fill:var(--c, red)")] [] []]) =
      .elem "svg" [] [] [.elem "rect" [("fill", "red")] [] []] ∧
    stripUnsupportedForLegacy
        (.elem "svg" [] []
          [.elem "g" [("style", "--c: blue")] []
            [.elem "rect" [("style", "fill:var(--c, red)")] [] []]]) =
      .elem "svg" [] [] [.elem "g" [] [] [.elem "rect" [("fill", "blue")] [] []]] ∧
    resolveCssVariables "var(--b0)" (chainVars 10) = "done" ∧
    (∀ (value : String) (vars : List (String × String)),
      resolveCssVariables value vars 11 = value) ∧
    resolveCssVariables "var(--missing)" [] = "" := by
  refine ⟨?_, ?_, ?_, fun _ _ => rfl, ?_⟩ <;> with_unfolding_all rfl

/-! ## Legacy transform flattening (`extractTranslation`)

`TRANSLATE_REGEX` and `MATRIX_REGEX` matching is embedded as a left-to-right
scanner over the character list: at each position the pattern is tried (with the
same backtracking outcomes as the regex on that pattern), and the first match
wins, exactly like `String.prototype.match`. -/

structure TranslationExtraction where
  tx : ℚ
  ty : ℚ
  consumed : Bool
deriving DecidableEq, Repr

/-- Case-insensitive literal prefix test (the regexes carry the `i` flag),
character by character. -/
def lowerStartsL : List Char → List Char → Bool
  | [], _ => true
  | _ :: _, [] => false
  | p :: ps, c :: cs => (c.toLower == p) && lowerStartsL ps cs

def lowerStarts (pat : String) (l : List Char) : Bool := lowerStartsL pat.toList l

/-- The numeric token `[+-]?\d*\.?\d+(?:e[+-]?\d+)?` of `TRANSLATE_REGEX`,
with the regex's backtracking folded in: a `.` not followed by a digit is left
unconsumed, and an `e` not followed by digits is left unconsumed. -/
def parseRegexNumber (l : List Char) : Option (ℚ × List Char) :=
  let (sign, l1) : ℚ × List Char :=
    if l.head? == some '-' then (-1, l.tail)
    else if l.head? == some '+' then (1, l.tail)
    else (1, l)
  let (ip, ic, l2) := takeDigits l1
  let withExp : ℚ → List Char → ℚ × List Char := fun v rest =>
    let (ex, r') := parseExp rest
    (v * pow10 ex, r')
  if l2.head? == some '.' then
    let (fp, fc, l3) := takeDigits l2.tail
    if fc = 0 then
      if ic = 0 then none else some (withExp (sign * ip) l2)
    else some (withExp (sign * ((ip : ℚ) + (fp : ℚ) / 10 ^ fc)) l3)
  else if ic = 0 then none else some (withExp (sign * ip) l2)

/-- `[\s,]` separator class. -/
def isSepChar (c : Char) : Bool := isWsChar c || c == ','

/-- After `\s*`, is the next character the closing `)`? -/
def closesParen (l : List Char) : Bool :=
  match l.dropWhile isWsChar with
  | ')' :: _ => true
  | _ => false

/-- Try `TRANSLATE_REGEX` at the head of the list, returning the two captured
numeric groups on success. -/
def matchTransHere (l : List Char) : Option (Option ℚ × Option ℚ) :=
  if lowerStarts "translate(" l then
    let r1 := (l.drop 10).dropWhile isWsChar
    match parseRegexNumber r1 with
    | some (n1, r2) =>
      let r3 := r2.dropWhile isSepChar
      if r2.length ≠ r3.length then
        match parseRegexNumber r3 with
        | some (n2, r4) =>
          if closesParen r4 then some (some n1, some n2)
          else if closesParen r2 then some (some n1, none) else none
        | none => if closesParen r2 then some (some n1, none) else none
      else if closesParen r2 then some (some n1, none) else none
    | none =>
      let r3 := r1.dropWhile isSepChar
      if r1.length ≠ r3.length then
        match parseRegexNumber r3 with
        | some (n2, r4) =>
          if closesParen r4 then some (none, some n2)
          else if closesParen r1 then some (none, none) else none
        | none => if closesParen r1 then some (none, none) else none
      else if closesParen r1 then some (none, none) else none
  else none

/-- Scan for the first `TRANSLATE_REGEX` match. -/
def scanTranslateAux : ℕ → List Char → Option (Option ℚ × Option ℚ)
  | 0, _ => none
  | _, [] => none
  | fuel + 1, c :: cs =>
    match matchTransHere (c :: cs) with
    | some r => some r
    | none => scanTranslateAux fuel cs

def scanTranslate (l : List Char) : Option (Option ℚ × Option ℚ) :=
  scanTranslateAux l.length l

/-- Try `MATRIX_REGEX` (`matrix\(([^)]+)\)`) at the head of the list, returning
the captured inner characters. -/
def matchMatrixHere (l : List Char) : Option (List Char) :=
  if lowerStarts "matrix(" l then
    let inner := (l.drop 7).takeWhile (· ≠ ')')
    if inner.isEmpty then none
    else
      match (l.drop 7).drop inner.length with
      | ')' :: _ => some inner
      | _ => none
  else none

def scanMatrixAux : ℕ → List Char → Option (List Char)
  | 0, _ => none
  | _, [] => none
  | fuel + 1, c :: cs =>
    match matchMatrixHere (c :: cs) with
    | some r => some r
    | none => scanMatrixAux fuel cs

def scanMatrix (l : List Char) : Option (List Char) := scanMatrixAux l.length l

/-- Maximal runs of non-separator characters (`split(/[\s,]+/)` minus the empty
chunks, which `parseFloat` maps to `NaN` and the `isFinite` filter drops anyway). -/
def splitSepRuns (l : List Char) : List (List Char) :=
  match l with
  | [] => []
  | c :: cs =>
    if isSepChar c then splitSepRuns (cs.dropWhile isSepChar)
    else
      match splitSepRuns cs with
      | [] => [[c]]
      | chunk :: rest =>
        match cs with
        | [] => [[c]]
        | c2 :: _ => if isSepChar c2 then [c] :: chunk :: rest else (c :: chunk) :: rest
termination_by l.length
decreasing_by
  all_goals first
    | exact Nat.lt_succ_of_le (List.dropWhile_sublist _).length_le
    | simp

/-- `extractTranslation(transformValue)`. -/
def extractTranslation (transformValue : Option String) : TranslationExtraction :=
  match transformValue with
  | none => ⟨0, 0, false⟩
  | some tv =>
    if tv = "" then ⟨0, 0, false⟩
    else
      match scanTranslate tv.toList with
      | some (g1, g2) => ⟨g1.getD 0, g2.getD 0, true⟩
      | none =>
        match scanMatrix tv.toList with
        | some inner =>
          let components := (splitSepRuns inner).filterMap
            (fun tok => jsParseFloat (String.mk tok))
          match components with
          | [a, b, c, d, e, f] =>
            if |a - 1| < 1 / 1000000 ∧ |d - 1| < 1 / 1000000 ∧
                |b| < 1 / 1000000 ∧ |c| < 1 / 1000000 then
              ⟨e, f, true⟩
            else ⟨0, 0, false⟩
          | _ => ⟨0, 0, false⟩
        | none => ⟨0, 0, false⟩

/-! ## Legacy coordinate normalization (`normalizeLegacyCoordinates`) -/

/-- `parseNumericAttribute(value)`. -/
def parseNumericAttribute : Option String → Option ℚ
  | none => none
  | some s => if s = "" then none else jsParseFloat s

/-- The running `{minX, minY, maxX, maxY}` bounding box; `none` is the initial
`±Infinity` state (no recognized coordinate recorded yet). -/
structure BBox where
  minX : ℚ
  minY : ℚ
  maxX : ℚ
  maxY : ℚ
deriving DecidableEq, Repr

/-- `recordBounds(x, y)` (all model coordinates are finite rationals, so the
`Number.isFinite` guard always passes). -/
def bboxAdd (b : Option BBox) (x y : ℚ) : Option BBox :=
  match b with
  | none => some ⟨x, y, x, y⟩
  | some bb => some ⟨min bb.minX x, min bb.minY y, max bb.maxX x, max bb.maxY y⟩

def bboxOfPoints (pts : List (ℚ × ℚ)) : Option BBox :=
  pts.foldl (fun acc p => bboxAdd acc p.1 p.2) none

def bboxMerge : Option BBox → Option BBox → Option BBox
  | none, b => b
  | a, none => a
  | some a, some b =>
    some ⟨min a.minX b.minX, min a.minY b.minY, max a.maxX b.maxX, max a.maxY b.maxY⟩

/-- Split a character list at every `','` (plain `split(',')`, empties kept). -/
def splitComma (l : List Char) : List (List Char) :=
  match l with
  | [] => [[]]
  | ',' :: cs => [] :: splitComma cs
  | c :: cs =>
    match splitComma cs with
    | [] => [[c]]
    | chunk :: rest => (c :: chunk) :: rest

/-- `parsePoints(value)`. -/
def parsePoints : Option String → List (ℚ × ℚ)
  | none => []
  | some v =>
    if v.trim = "" then []
    else
      (splitWs v.trim.toList).filterMap (fun entry =>
        let parts := splitComma entry
        match jsParseFloat (String.mk (parts.headD [])),
            jsParseFloat (String.mk ((parts.get? 1).getD [])) with
        | some x, some y => some (x, y)
        | _, _ => none)

/-- The per-shape `switch`: the bounds this element records (under the
accumulated offset) and the coordinate-attribute rewrite its adjustment closure
performs once the global offset is known. Unrecognized tags record nothing and
keep their raw attributes. -/
def shapeRecord (tagLower : String) (attrs : List (String × String)) (totalTx totalTy : ℚ) :
    Option BBox × (ℚ → ℚ → List (String × String) → List (String × String)) :=
  match tagLower with
  | "rect" =>
    let x := (parseNumericAttribute (objGet attrs "x")).getD 0 + totalTx
    let y := (parseNumericAttribute (objGet attrs "y")).getD 0 + totalTy
    let width := (parseNumericAttribute (objGet attrs "width")).getD 0
    let height := (parseNumericAttribute (objGet attrs "height")).getD 0
    (bboxOfPoints [(x, y), (x + width, y + height)],
      fun ox oy a =>
        objSet (objSet a "x" (formatSvgNumberQ (x - ox))) "y" (formatSvgNumberQ (y - oy)))
  | "circle" =>
    let cx := (parseNumericAttribute (objGet attrs "cx")).getD 0 + totalTx
    let cy := (parseNumericAttribute (objGet attrs "cy")).getD 0 + totalTy
    let r := (parseNumericAttribute (objGet attrs "r")).getD 0
    (bboxOfPoints [(cx - r, cy - r), (cx + r, cy + r)],
      fun ox oy a =>
        objSet (objSet a "cx" (formatSvgNumberQ (cx - ox))) "cy" (formatSvgNumberQ (cy - oy)))
  | "ellipse" =>
    let cx := (parseNumericAttribute (objGet attrs "cx")).getD 0 + totalTx
    let cy := (parseNumericAttribute (objGet attrs "cy")).getD 0 + totalTy
    let rx := (parseNumericAttribute (objGet attrs "rx")).getD 0
    let ry := (parseNumericAttribute (objGet attrs "ry")).getD 0
    (bboxOfPoints [(cx - rx, cy - ry), (cx + rx, cy + ry)],
      fun ox oy a =>
        objSet (objSet a "cx" (formatSvgNumberQ (cx - ox))) "cy" (formatSvgNumberQ (cy - oy)))
  | "line" =>
    let x1 := (parseNumericAttribute (objGet attrs "x1")).getD 0 + totalTx
    let y1 := (parseNumericAttribute (objGet attrs "y1")).getD 0 + totalTy
    let x2 := (parseNumericAttribute (objGet attrs "x2")).getD 0 + totalTx
    let y2 := (parseNumericAttribute (objGet attrs "y2")).getD 0 + totalTy
    (bboxOfPoints [(x1, y1), (x2, y2)],
      fun ox oy a =>
        objSet (objSet (objSet (objSet a
          "x1" (formatSvgNumberQ (x1 - ox))) "y1" (formatSvgNumberQ (y1 - oy)))
          "x2" (formatSvgNumberQ (x2 - ox))) "y2" (formatSvgNumberQ (y2 - oy)))
  | "polyline" =>
    let points := (parsePoints (objGet attrs "points")).map
      (fun p => (p.1 + totalTx, p.2 + totalTy))
    if points.isEmpty then (none, fun _ _ a => a)
    else
      (bboxOfPoints points,
        fun ox oy a =>
          objSet a "points" (String.intercalate " " (points.map
            (fun p => formatSvgNumberQ (p.1 - ox) ++ "," ++ formatSvgNumberQ (p.2 - oy)))))
  | "polygon" =>
    let points := (parsePoints (objGet attrs "points")).map
      (fun p => (p.1 + totalTx, p.2 + totalTy))
    if points.isEmpty then (none, fun _ _ a => a)
    else
      (bboxOfPoints points,
        fun ox oy a =>
          objSet a "points" (String.intercalate " " (points.map
            (fun p => formatSvgNumberQ (p.1 - ox) ++ "," ++ formatSvgNumberQ (p.2 - oy)))))
  | "text" =>
    let x := (parseNumericAttribute (objGet attrs "x")).getD 0 + totalTx
    let y := (parseNumericAttribute (objGet attrs "y")).getD 0 + totalTy
    (bboxOfPoints [(x, y)],
      fun ox oy a =>
        objSet (objSet a "x" (formatSvgNumberQ (x - ox))) "y" (formatSvgNumberQ (y - oy)))
  | "tspan" =>
    let x := (parseNumericAttribute (objGet attrs "x")).getD 0 + totalTx
    let y := (parseNumericAttribute (objGet attrs "y")).getD 0 + totalTy
    (bboxOfPoints [(x, y)],
      fun ox oy a =>
        objSet (objSet a "x" (formatSvgNumberQ (x - ox))) "y" (formatSvgNumberQ (y - oy)))
  | _ => (none, fun _ _ a => a)

/-- The coordinate `walk(element, parentTx, parentTy)` of
`normalizeLegacyCoordinates` (fuelled by `nodeSize`, the `0` case unreachable).
It returns the recorded bounding box and the rewritten element as a function of
the global offset: `none` means the adjustment pass never ran (empty box), in
which case only consumed `transform` attributes disappear. -/
def legacyCoordWalkF : ℕ → XNode → ℚ → ℚ → Option BBox × (Option (ℚ × ℚ) → XNode)
  | 0, n, _, _ => (none, fun _ => n)
  | _ + 1, .text s, _, _ => (none, fun _ => .text s)
  | fuel + 1, .elem tag attrs sp children, parentTx, parentTy =>
    let te := extractTranslation (objGet attrs "transform")
    let totalTx := parentTx + te.tx
    let totalTy := parentTy + te.ty
    let attrs1 := if te.consumed then objDelete attrs "transform" else attrs
    let (selfBox, applyCoords) := shapeRecord tag.toLower attrs1 totalTx totalTy
    let childPairs := children.map (fun c =>
      match c with
      | .elem t a s2 ch => legacyCoordWalkF fuel (.elem t a s2 ch) totalTx totalTy
      | .text s => (none, fun _ => .text s))
    let totalBox := childPairs.foldl (fun acc cp => bboxMerge acc cp.1) selfBox
    (totalBox, fun off =>
      let attrs2 :=
        match off with
        | some (ox, oy) => applyCoords ox oy attrs1
        | none => attrs1
      .elem tag attrs2 sp (childPairs.map (fun cp => cp.2 off)))

/-- `normalizeLegacyCoordinates(svgDocument)`. -/
def normalizeLegacyCoordinates (svgElement : XNode) : XNode :=
  let (box, render) := legacyCoordWalkF (nodeSize svgElement) svgElement 0 0
  match box with
  | none => render none
  | some bb =>
    let result := render (some (bb.minX, bb.minY))
    let viewBoxWidth := max 1 (bb.maxX - bb.minX)
    let viewBoxHeight := max 1 (bb.maxY - bb.minY)
    result.setAttr "viewBox"
      ("0 0 " ++ formatSvgNumberQ viewBoxWidth ++ " " ++ formatSvgNumberQ viewBoxHeight)

/-- `applyStrictRootSize(svgDocument, width, height)`. -/
def applyStrictRootSize (svgElement : XNode) (width height : ℚ) : XNode :=
  match svgElement with
  | .text s => .text s
  | .elem tag attrs sp children =>
    let fallbackWidth := (parseDimension ((objGet attrs "width").map .str)).getD 400
    let fallbackHeight := (parseDimension ((objGet attrs "height").map .str)).getD 400
    let resolvedWidth := if 0 < width then width else fallbackWidth
    let resolvedHeight := if 0 < height then height else fallbackHeight
    let widthPx : ℤ := max 1 (jsRound resolvedWidth)
    let heightPx : ℤ := max 1 (jsRound resolvedHeight)
    let a1 := objSet attrs "width" (toString widthPx ++ "px")
    let a2 := objSet a1 "height" (toString heightPx ++ "px")
    let a3 := objSet a2 "viewBox"
      ("0 0 " ++ formatSvgNumberQ widthPx ++ " " ++ formatSvgNumberQ heightPx)
    let a4 := objSet a3 "preserveAspectRatio" "xMidYMid meet"
    .elem tag a4 sp children

/-- `getLegacySvgString(element, options)` modulo the two external collaborators:
the dom-to-svg oracle result is the `svgDocument` parameter, and the final
`XMLSerializer` step is the identity on the tree (`removeRoundedCornersLegacy`
is an intentional no-op). The `_borderRadius` parameter of the source is unused:
`getExportPreparation` is called without it. -/
def getLegacySvgStringModel (element : ElementModel) (options : JSOptions)
    (svgDocument : XNode) : XNode :=
  let preparation := getExportPreparation element options none
  applyStrictRootSize
    (normalizeLegacyCoordinates (stripUnsupportedForLegacy svgDocument))
    preparation.width preparation.height

/-- The C2 scenario document: a rect at (10,10) sized 20×20 inside a group
translated by (5,5). -/
def legacyRectDoc : XNode :=
  .elem "svg" [] []
    [.elem "g" [("transform", "translate(5,5)")] []
      [.elem "rect" [("x", "10"), ("y", "10"), ("width", "20"), ("height", "20")] [] []]]

/-- C2 counterexample: the produced legacy SVG string's root viewBox is NOT
`"0 0 20 20"` — `applyStrictRootSize` runs after the bounding-box re-homing and
overwrites the viewBox with the preparation's resolved dimensions (here the
element's 300×300 fallback). -/
theorem C2_counterexample :
    (getLegacySvgStringModel sampleElement {} legacyRectDoc).getAttr "viewBox" =
        some "0 0 300 300" ∧
      (getLegacySvgStringModel sampleElement {} legacyRectDoc).getAttr "viewBox" ≠
        some "0 0 20 20" := by
  constructor <;> with_unfolding_all decide

set_option maxRecDepth 10000 in
/-- C2 (amended): the nested rect is flattened to absolute coordinates
`x=15, y=15` (the recorded bounding box is `[15,35]×[15,35]`); bounding-box
re-homing rewrites it to `x=0, y=0` and the *normalize step* sets
`viewBox="0 0 20 20"`; the root viewBox of the final legacy document is then
overwritten by `applyStrictRootSize` with the preparation's dimensions, so it
equals `"0 0 20 20"` exactly when the export resolves to 20×20. -/
theorem C2_legacy_rect_normalize :
    (legacyCoordWalkF (nodeSize legacyRectDoc) legacyRectDoc 0 0).1 =
        some ⟨15, 15, 35, 35⟩ ∧
    normalizeLegacyCoordinates (stripUnsupportedForLegacy legacyRectDoc) =
      .elem "svg" [("viewBox", "0 0 20 20")] []
        [.elem "g" [] []
          [.elem "rect" [("x", "0"), ("y", "0"), ("width", "20"), ("height", "20")] [] []]] ∧
    getLegacySvgStringModel sampleElement
        { width := some (.num 20), height := some (.num 20) } legacyRectDoc =
      .elem "svg"
        [("viewBox", "0 0 20 20"), ("width", "20px"), ("height", "20px"),
         ("preserveAspectRatio", "xMidYMid meet")] []
        [.elem "g" [] []
          [.elem "rect" [("x", "0"), ("y", "0"), ("width", "20"), ("height", "20")] [] []]] := by
  refine ⟨?_, ?_, ?_⟩ <;> with_unfolding_all rfl

/-! ## Rendered transform-attribute strings

To quantify over "every transform attribute string that contains a
`translate(tx, ty)` term", transform attributes are generated from abstract term
lists rendered in standard SVG notation (`name(args)` terms joined by single
spaces, integer arguments in plain decimal). -/

/-- Decimal digits of a natural number, most significant first. -/
def natDigits (n : ℕ) : List Char :=
  if h : n < 10 then [Nat.digitChar n]
  else natDigits (n / 10) ++ [Nat.digitChar (n % 10)]
termination_by n
decreasing_by exact Nat.div_lt_self (by omega) (by norm_num)

/-- Plain decimal rendering of an integer, as JavaScript prints one. -/
def renderInt (z : ℤ) : List Char :=
  if z < 0 then '-' :: natDigits z.natAbs else natDigits z.natAbs

/-- Value of a digit string (useful to relate `takeDigits` with `natDigits`). -/
def digitsVal (l : List Char) : ℕ := l.foldl (fun acc c => 10 * acc + digitVal c) 0

theorem digitChar_isDigit {d : ℕ} (h : d < 10) : (Nat.digitChar d).isDigit = true := by
  interval_cases d <;> decide

theorem digitChar_val {d : ℕ} (h : d < 10) : digitVal (Nat.digitChar d) = d := by
  interval_cases d <;> decide

theorem natDigits_ne_nil (n : ℕ) : natDigits n ≠ [] := by
  rw [natDigits]
  split
  · simp
  · simp

theorem natDigits_all_digit (n : ℕ) : ∀ c ∈ natDigits n, c.isDigit = true := by
  induction n using Nat.strong_induction_on with
  | _ n ih =>
    rw [natDigits]
    split
    · intro c hc
      simp only [List.mem_singleton] at hc
      subst hc
      exact digitChar_isDigit (by omega)
    · intro c hc
      rw [List.mem_append] at hc
      rcases hc with hc | hc
      · exact ih (n / 10) (Nat.div_lt_self (by omega) (by norm_num)) c hc
      · simp only [List.mem_singleton] at hc
        subst hc
        exact digitChar_isDigit (Nat.mod_lt _ (by norm_num))

theorem digitsVal_from (l : List Char) (acc : ℕ) :
    l.foldl (fun acc c => 10 * acc + digitVal c) acc = acc * 10 ^ l.length + digitsVal l := by
  induction l generalizing acc with
  | nil => simp [digitsVal]
  | cons c t ih =>
    simp only [List.foldl_cons, digitsVal, List.length_cons]
    rw [ih (10 * acc + digitVal c), ih (10 * 0 + digitVal c)]
    ring

theorem digitsVal_append_singleton (l : List Char) (c : Char) :
    digitsVal (l ++ [c]) = 10 * digitsVal l + digitVal c := by
  unfold digitsVal
  rw [List.foldl_append]
  simp

theorem natDigits_val (n : ℕ) : digitsVal (natDigits n) = n := by
  induction n using Nat.strong_induction_on with
  | _ n ih =>
    rw [natDigits]
    split
    · simp [digitsVal, digitChar_val (by omega : n < 10)]
    · rw [digitsVal_append_singleton, ih (n / 10) (Nat.div_lt_self (by omega) (by norm_num)),
        digitChar_val (Nat.mod_lt _ (by norm_num))]
      omega

/-- `takeDigits` consumes exactly an all-digit block and computes its value. -/
theorem takeDigits_digits (ds r : List Char) (hd : ∀ c ∈ ds, c.isDigit = true)
    (hr : ∀ c, r.head? = some c → c.isDigit = false) :
    takeDigits (ds ++ r) = (digitsVal ds, ds.length, r) := by
  induction ds with
  | nil =>
    simp only [List.nil_append]
    cases r with
    | nil => simp [takeDigits, digitsVal]
    | cons c cs =>
      have := hr c rfl
      simp [takeDigits, this, digitsVal]
  | cons c t ih =>
    have hc : c.isDigit = true := hd c (List.mem_cons_self _ _)
    simp only [List.cons_append, takeDigits, hc, if_true, List.append_eq]
    rw [ih (fun x hx => hd x (List.mem_cons_of_mem _ hx))]
    have hval : digitsVal (c :: t) = digitVal c * 10 ^ t.length + digitsVal t := by
      unfold digitsVal
      rw [List.foldl_cons, digitsVal_from]
      ring_nf
      rfl
    simp [hval]

/-- The ten decimal digit characters. -/
def digitChars : List Char := ['0', '1', '2', '3', '4', '5', '6', '7', '8', '9']

theorem natDigits_mem_digitChars (n : ℕ) : ∀ c ∈ natDigits n, c ∈ digitChars := by
  induction n using Nat.strong_induction_on with
  | _ n ih =>
    rw [natDigits]
    split
    · intro c hc
      simp only [List.mem_singleton] at hc
      subst hc
      have h10 : n < 10 := by omega
      interval_cases n <;> decide
    · intro c hc
      rw [List.mem_append] at hc
      rcases hc with hc | hc
      · exact ih (n / 10) (Nat.div_lt_self (by omega) (by norm_num)) c hc
      · simp only [List.mem_singleton] at hc
        subst hc
        have : n % 10 < 10 := Nat.mod_lt _ (by norm_num)
        interval_cases h : (n % 10) <;> decide

theorem digitChars_isDigit {c : Char} (h : c ∈ digitChars) : c.isDigit = true := by
  fin_cases h <;> decide

theorem digitChars_not_sign {c : Char} (h : c ∈ digitChars) :
    (c == '-') = false ∧ (c == '+') = false := by
  fin_cases h <;> exact ⟨rfl, rfl⟩

theorem renderInt_ne_nil (z : ℤ) : renderInt z ≠ [] := by
  unfold renderInt
  split
  · simp
  · exact natDigits_ne_nil _

/-- `parseRegexNumber` consumes exactly a rendered integer when the remainder
starts with a character that cannot extend the numeric token. -/
theorem parseRegexNumber_renderInt (z : ℤ) (r : List Char)
    (hr : ∀ c, r.head? = some c →
      c.isDigit = false ∧ c ≠ '.' ∧ c ≠ 'e' ∧ c ≠ 'E') :
    parseRegexNumber (renderInt z ++ r) = some ((z : ℚ), r) := by
  have hrdig : ∀ c, r.head? = some c → c.isDigit = false := fun c hc => (hr c hc).1
  have hdotF : (r.head? == some '.') = false := by
    cases hh : r.head? with
    | none => rfl
    | some c =>
      have := (hr c hh).2.1
      simp [this]
  have hexp : parseExp r = (0, r) := by
    unfold parseExp
    have hcond : (r.head? == some 'e' || r.head? == some 'E') = false := by
      cases hh : r.head? with
      | none => rfl
      | some c =>
        have h1 := (hr c hh).2.2.1
        have h2 := (hr c hh).2.2.2
        simp [h1, h2]
    rw [hcond]
    simp
  by_cases hz : z < 0
  · have hrend : renderInt z = '-' :: natDigits z.natAbs := by
      unfold renderInt
      rw [if_pos hz]
    rw [hrend]
    unfold parseRegexNumber
    simp only [List.cons_append, List.head?_cons, List.tail_cons]
    rw [show ((some '-' == some '-') = true) from rfl]
    simp only [if_true]
    rw [takeDigits_digits (natDigits z.natAbs) r
      (fun c hc => digitChars_isDigit (natDigits_mem_digitChars _ c hc)) hrdig]
    simp only [natDigits_val]
    have hlen : (natDigits z.natAbs).length ≠ 0 := by
      intro h
      exact natDigits_ne_nil z.natAbs (List.length_eq_zero.mp h)
    rw [hdotF]
    simp only [Bool.false_eq_true, if_false, hlen, hexp]
    have hcast : ((z.natAbs : ℚ)) = -(z : ℚ) := by
      rw [Int.cast_natAbs]
      exact_mod_cast abs_of_neg hz
    simp [pow10, hcast]
  · have hrend : renderInt z = natDigits z.natAbs := by
      unfold renderInt
      rw [if_neg hz]
    obtain ⟨c, cs, hds⟩ : ∃ c cs, natDigits z.natAbs = c :: cs := by
      cases h : natDigits z.natAbs with
      | nil => exact absurd h (natDigits_ne_nil _)
      | cons c cs => exact ⟨c, cs, rfl⟩
    have hcmem : c ∈ digitChars := natDigits_mem_digitChars _ c (by rw [hds]; exact List.mem_cons_self _ _)
    obtain ⟨hcm, hcp⟩ := digitChars_not_sign hcmem
    rw [hrend, hds]
    unfold parseRegexNumber
    simp only [List.cons_append, List.head?_cons, Option.some.injEq]
    rw [show (some c == some '-') = (c == '-') by cases hcb : (c == '-') <;> simp_all,
      show (some c == some '+') = (c == '+') by cases hcb : (c == '+') <;> simp_all,
      hcm, hcp]
    simp only [Bool.false_eq_true, if_false]
    rw [show (c :: (cs ++ r)) = (natDigits z.natAbs ++ r) by rw [hds, List.cons_append]]
    rw [takeDigits_digits (natDigits z.natAbs) r
      (fun x hx => digitChars_isDigit (natDigits_mem_digitChars _ x hx)) hrdig]
    simp only [natDigits_val]
    have hlen : (natDigits z.natAbs).length ≠ 0 := by
      intro h
      exact natDigits_ne_nil z.natAbs (List.length_eq_zero.mp h)
    rw [hdotF]
    simp only [Bool.false_eq_true, if_false, hlen, hexp]
    have hcast : ((z.natAbs : ℚ)) = (z : ℚ) := by
      rw [Int.cast_natAbs]
      exact_mod_cast abs_of_nonneg (le_of_not_lt hz)
    simp [pow10, hcast]

/-- Abstract transform-list terms: a `translate(tx, ty)` term or one of the other
SVG transform functions (`scale`, `rotate`, `skewX`, `skewY`, `matrix`) with
integer arguments. -/
inductive TransformTerm where
  | translate (tx ty : ℤ)
  | scale (a : ℤ)
  | rotate (a : ℤ)
  | skewX (a : ℤ)
  | skewY (a : ℤ)
  | matrix (a b c d e f : ℤ)
deriving DecidableEq, Repr

def isTranslateTerm : TransformTerm → Bool
  | .translate _ _ => true
  | _ => false

def hasTranslate (ts : List TransformTerm) : Bool := ts.any isTranslateTerm

/-- Arguments of the first `translate` term (the one the first regex match hits). -/
def firstTranslateArgs : List TransformTerm → ℤ × ℤ
  | [] => (0, 0)
  | .translate tx ty :: _ => (tx, ty)
  | _ :: rest => firstTranslateArgs rest

/-- Standard rendering of one transform term. -/
def renderTerm : TransformTerm → List Char
  | .translate tx ty => "translate(".toList ++ renderInt tx ++ ',' :: renderInt ty ++ [')']
  | .scale a => "scale(".toList ++ renderInt a ++ [')']
  | .rotate a => "rotate(".toList ++ renderInt a ++ [')']
  | .skewX a => "skewX(".toList ++ renderInt a ++ [')']
  | .skewY a => "skewY(".toList ++ renderInt a ++ [')']
  | .matrix a b c d e f =>
    "matrix(".toList ++ renderInt a ++ ',' :: renderInt b ++ ',' :: renderInt c ++
      ',' :: renderInt d ++ ',' :: renderInt e ++ ',' :: renderInt f ++ [')']

/-- Terms joined by single spaces. -/
def renderTerms : List TransformTerm → List Char
  | [] => []
  | [t] => renderTerm t
  | t :: rest => renderTerm t ++ ' ' :: renderTerms rest

/-- `dropWhile` does not touch a rendered integer (its head is `-` or a digit). -/
theorem dropWhile_renderInt_append (p : Char → Bool) (hneg : p '-' = false)
    (hdig : ∀ c ∈ digitChars, p c = false) (z : ℤ) (r : List Char) :
    (renderInt z ++ r).dropWhile p = renderInt z ++ r := by
  unfold renderInt
  split
  · simp [List.dropWhile_cons, hneg]
  · obtain ⟨c, cs, hds⟩ : ∃ c cs, natDigits z.natAbs = c :: cs := by
      cases h : natDigits z.natAbs with
      | nil => exact absurd h (natDigits_ne_nil _)
      | cons c cs => exact ⟨c, cs, rfl⟩
    rw [hds, List.cons_append, List.dropWhile_cons,
      hdig c (natDigits_mem_digitChars _ c (by rw [hds]; exact List.mem_cons_self _ _))]
    simp

/-- The translate pattern matches at the start of a rendered `translate` term and
captures both arguments, whatever follows the closing parenthesis. -/
theorem matchTransHere_translate (tx ty : ℤ) (tail : List Char) :
    matchTransHere ("translate(".toList ++ renderInt tx ++ ',' :: renderInt ty ++
      ')' :: tail) = some (some ((tx : ℚ)), some ((ty : ℚ))) := by
  have hcomma : ∀ c : Char, (',' :: (renderInt ty ++ ')' :: tail)).head? = some c →
      c.isDigit = false ∧ c ≠ '.' ∧ c ≠ 'e' ∧ c ≠ 'E' := by
    intro c hc
    simp only [List.head?_cons, Option.some.injEq] at hc
    subst hc
    refine ⟨rfl, by decide, by decide, by decide⟩
  have hparen : ∀ c : Char, (')' :: tail).head? = some c →
      c.isDigit = false ∧ c ≠ '.' ∧ c ≠ 'e' ∧ c ≠ 'E' := by
    intro c hc
    simp only [List.head?_cons, Option.some.injEq] at hc
    subst hc
    refine ⟨rfl, by decide, by decide, by decide⟩
  have hp1 : parseRegexNumber (renderInt tx ++ ',' :: (renderInt ty ++ ')' :: tail)) =
      some ((tx : ℚ), ',' :: (renderInt ty ++ ')' :: tail)) :=
    parseRegexNumber_renderInt tx _ hcomma
  have hp2 : parseRegexNumber (renderInt ty ++ ')' :: tail) =
      some ((ty : ℚ), ')' :: tail) :=
    parseRegexNumber_renderInt ty _ hparen
  have hstart : lowerStarts "translate(" ("translate(".toList ++ renderInt tx ++
      ',' :: renderInt ty ++ ')' :: tail) = true := rfl
  unfold matchTransHere
  rw [hstart]
  simp only [if_true]
  have hdrop : ("translate(".toList ++ renderInt tx ++ ',' :: renderInt ty ++
      ')' :: tail).drop 10 = renderInt tx ++ ',' :: (renderInt ty ++ ')' :: tail) := by
    simp [List.drop_append_of_le_length]
  rw [hdrop]
  rw [dropWhile_renderInt_append isWsChar rfl (by intro c hc; fin_cases hc <;> rfl) tx _]
  rw [hp1]
  have hsep : (',' :: (renderInt ty ++ ')' :: tail)).dropWhile isSepChar =
      renderInt ty ++ ')' :: tail := by
    rw [List.dropWhile_cons]
    simp only [show isSepChar ',' = true from rfl, if_true]
    exact dropWhile_renderInt_append isSepChar rfl (by intro c hc; fin_cases hc <;> rfl) ty _
  dsimp only
  rw [hsep]
  have hlen : (',' :: (renderInt ty ++ ')' :: tail)).length ≠
      (renderInt ty ++ ')' :: tail).length := by
    simp
  rw [if_pos hlen, hp2]
  dsimp only
  have hclose : closesParen (')' :: tail) = true := rfl
  rw [hclose]
  simp

theorem lowerStarts_translate_false_head {c : Char} (h : (c.toLower == 't') = false)
    (cs : List Char) : lowerStarts "translate(" (c :: cs) = false := by
  have : lowerStarts "translate(" (c :: cs) =
      ((c.toLower == 't') && lowerStartsL "ranslate(".toList cs) := rfl
  rw [this, h]
  rfl

theorem matchTransHere_none {l : List Char} (h : lowerStarts "translate(" l = false) :
    matchTransHere l = none := by
  unfold matchTransHere
  rw [h]
  rfl

/-- Stepping the scanner over a block in which no position matches. -/
theorem scanTranslateAux_append (a rest : List Char) (fuel : ℕ)
    (h : ∀ x, x <:+ a → x ≠ [] → matchTransHere (x ++ rest) = none) :
    scanTranslateAux (a.length + fuel) (a ++ rest) = scanTranslateAux fuel rest := by
  induction a with
  | nil => simp
  | cons c t ih =>
    have hm : matchTransHere ((c :: t) ++ rest) = none :=
      h (c :: t) (List.suffix_refl _) (by simp)
    have hstep : (c :: t).length + fuel = (t.length + fuel) + 1 := by
      simp only [List.length_cons]
      omega
    rw [hstep]
    show (match matchTransHere (c :: (t ++ rest)) with
      | some r => some r
      | none => scanTranslateAux (t.length + fuel) (t ++ rest)) =
        scanTranslateAux fuel rest
    rw [show c :: (t ++ rest) = (c :: t) ++ rest from rfl, hm]
    exact ih (fun x hx hne => h x (hx.trans (List.suffix_cons c t)) hne)

/-- Suffix decomposition across an append. -/
theorem suffix_append_cases {α : Type} {x A B : List α} (h : x <:+ A ++ B) :
    x <:+ B ∨ ∃ a2, a2 <:+ A ∧ a2 ≠ [] ∧ x = a2 ++ B := by
  obtain ⟨p, hp⟩ := h
  by_cases hlen : p.length < A.length
  · right
    refine ⟨A.drop p.length, List.drop_suffix _ _, ?_, ?_⟩
    · intro hnil
      have := congrArg List.length hnil
      simp only [List.length_drop, List.length_nil] at this
      omega
    · have hx : x = (A ++ B).drop p.length := by
        rw [← hp, List.drop_left]
      rw [hx, List.drop_append_of_le_length (le_of_lt hlen)]
  · left
    have hx : x = (A ++ B).drop p.length := by
      rw [← hp, List.drop_left]
    have hplen : p.length = A.length + (p.length - A.length) := by omega
    rw [hx, hplen, List.drop_append]
    exact List.drop_suffix _ _

theorem renderInt_mem (z : ℤ) : ∀ c ∈ renderInt z, c ∈ '-' :: digitChars := by
  unfold renderInt
  split
  · intro c hc
    rcases List.mem_cons.mp hc with hc | hc
    · simp [hc]
    · exact List.mem_cons_of_mem _ (natDigits_mem_digitChars _ c hc)
  · intro c hc
    exact List.mem_cons_of_mem _ (natDigits_mem_digitChars _ c hc)

theorem class_not_t {c : Char} (h : c ∈ '-' :: digitChars) : (c.toLower == 't') = false := by
  fin_cases h <;> rfl

/-- A block whose characters all fail the case-insensitive `t` test never starts a
translate match, at any of its suffix positions. -/
theorem matchTransHere_none_of_class {body : List Char}
    (hcls : ∀ c ∈ body, (c.toLower == 't') = false) :
    ∀ x, x <:+ body → x ≠ [] → ∀ rest, matchTransHere (x ++ rest) = none := by
  intro x hx hne rest
  cases x with
  | nil => exact absurd rfl hne
  | cons c cs =>
    have hc : c ∈ body := hx.subset (List.mem_cons_self _ _)
    exact matchTransHere_none (lowerStarts_translate_false_head (hcls c hc) _)

theorem safe_of_parts {A B : List Char}
    (hA : ∀ a2, a2 <:+ A → a2 ≠ [] → ∀ l, matchTransHere (a2 ++ l) = none)
    (hB : ∀ c ∈ B, (c.toLower == 't') = false) :
    ∀ x, x <:+ A ++ B → x ≠ [] → ∀ rest, matchTransHere (x ++ rest) = none := by
  intro x hx hne rest
  rcases suffix_append_cases hx with hxB | ⟨a2, ha2, hane, hxeq⟩
  · exact matchTransHere_none_of_class hB x hxB hne rest
  · subst hxeq
    rw [List.append_assoc]
    exact hA a2 ha2 hane (B ++ rest)

/-- Nonempty suffixes of a rendered non-translate term (plus the joining space)
never start a translate match. -/
theorem safeTermSuffix (t : TransformTerm) (hnt : isTranslateTerm t = false) :
    ∀ x, x <:+ renderTerm t ++ [' '] → x ≠ [] → ∀ rest,
      matchTransHere (x ++ rest) = none := by
  have nameSafe : ∀ (nm : List Char), nm.length ≤ 7 →
      (∀ n, n < nm.length → ∀ l, matchTransHere (nm.drop n ++ l) = none) →
      ∀ a2, a2 <:+ nm → a2 ≠ [] → ∀ l, matchTransHere (a2 ++ l) = none := by
    intro nm hle hdrop a2 ha2 hne l
    have hlen : a2.length ≤ nm.length := ha2.length_le
    have hpos : 1 ≤ a2.length := by
      cases a2 with
      | nil => exact absurd rfl hne
      | cons _ _ => simp
    have ha : a2 = nm.drop (nm.length - a2.length) := List.suffix_iff_eq_drop.mp ha2
    rw [ha]
    exact hdrop (nm.length - a2.length) (by omega) l
  cases t with
  | translate tx ty => simp [isTranslateTerm] at hnt
  | scale a =>
    have heq : renderTerm (.scale a) ++ [' '] =
        "scale(".toList ++ (renderInt a ++ [')', ' ']) := by
      simp [renderTerm, List.append_assoc]
    rw [heq]
    refine safe_of_parts (nameSafe _ (by decide) ?_) ?_
    · intro n hn l
      have h6 : ("scale(".toList).length = 6 := rfl
      rw [h6] at hn
      interval_cases n <;> exact matchTransHere_none rfl
    · intro c hc
      rcases List.mem_append.mp hc with hc | hc
      · exact class_not_t (renderInt_mem a c hc)
      · fin_cases hc <;> rfl
  | rotate a =>
    have heq : renderTerm (.rotate a) ++ [' '] =
        "rotate(".toList ++ (renderInt a ++ [')', ' ']) := by
      simp [renderTerm, List.append_assoc]
    rw [heq]
    refine safe_of_parts (nameSafe _ (by decide) ?_) ?_
    · intro n hn l
      have h7 : ("rotate(".toList).length = 7 := rfl
      rw [h7] at hn
      interval_cases n <;> exact matchTransHere_none rfl
    · intro c hc
      rcases List.mem_append.mp hc with hc | hc
      · exact class_not_t (renderInt_mem a c hc)
      · fin_cases hc <;> rfl
  | skewX a =>
    have heq : renderTerm (.skewX a) ++ [' '] =
        "skewX(".toList ++ (renderInt a ++ [')', ' ']) := by
      simp [renderTerm, List.append_assoc]
    rw [heq]
    refine safe_of_parts (nameSafe _ (by decide) ?_) ?_
    · intro n hn l
      have h6 : ("skewX(".toList).length = 6 := rfl
      rw [h6] at hn
      interval_cases n <;> exact matchTransHere_none rfl
    · intro c hc
      rcases List.mem_append.mp hc with hc | hc
      · exact class_not_t (renderInt_mem a c hc)
      · fin_cases hc <;> rfl
  | skewY a =>
    have heq : renderTerm (.skewY a) ++ [' '] =
        "skewY(".toList ++ (renderInt a ++ [')', ' ']) := by
      simp [renderTerm, List.append_assoc]
    rw [heq]
    refine safe_of_parts (nameSafe _ (by decide) ?_) ?_
    · intro n hn l
      have h6 : ("skewY(".toList).length = 6 := rfl
      rw [h6] at hn
      interval_cases n <;> exact matchTransHere_none rfl
    · intro c hc
      rcases List.mem_append.mp hc with hc | hc
      · exact class_not_t (renderInt_mem a c hc)
      · fin_cases hc <;> rfl
  | matrix a b c d e f =>
    have heq : renderTerm (.matrix a b c d e f) ++ [' '] =
        "matrix(".toList ++ (renderInt a ++ ',' :: renderInt b ++ ',' :: renderInt c ++
          ',' :: renderInt d ++ ',' :: renderInt e ++ ',' :: renderInt f ++ [')', ' ']) := by
      simp [renderTerm, List.append_assoc]
    rw [heq]
    refine safe_of_parts (nameSafe _ (by decide) ?_) ?_
    · intro n hn l
      have h7 : ("matrix(".toList).length = 7 := rfl
      rw [h7] at hn
      interval_cases n <;> exact matchTransHere_none rfl
    · intro ch hc
      simp only [List.cons_append, List.append_assoc] at hc
      rcases List.mem_append.mp hc with h | hc
      · exact class_not_t (renderInt_mem a ch h)
      rcases List.mem_cons.mp hc with h | hc
      · subst h; rfl
      rcases List.mem_append.mp hc with h | hc
      · exact class_not_t (renderInt_mem b ch h)
      rcases List.mem_cons.mp hc with h | hc
      · subst h; rfl
      rcases List.mem_append.mp hc with h | hc
      · exact class_not_t (renderInt_mem c ch h)
      rcases List.mem_cons.mp hc with h | hc
      · subst h; rfl
      rcases List.mem_append.mp hc with h | hc
      · exact class_not_t (renderInt_mem d ch h)
      rcases List.mem_cons.mp hc with h | hc
      · subst h; rfl
      rcases List.mem_append.mp hc with h | hc
      · exact class_not_t (renderInt_mem e ch h)
      rcases List.mem_cons.mp hc with h | hc
      · subst h; rfl
      rcases List.mem_append.mp hc with h | hc
      · exact class_not_t (renderInt_mem f ch h)
      fin_cases hc <;> rfl

theorem renderTerm_ne_nil (t : TransformTerm) : renderTerm t ≠ [] := by
  cases t <;> simp [renderTerm]

theorem scanTranslate_of_head_match {l : List Char} {v : Option ℚ × Option ℚ}
    (hm : matchTransHere l = some v) (hne : l ≠ []) : scanTranslate l = some v := by
  cases l with
  | nil => exact absurd rfl hne
  | cons c cs =>
    show scanTranslateAux (c :: cs).length (c :: cs) = some v
    rw [List.length_cons]
    show (match matchTransHere (c :: cs) with
      | some r => some r
      | none => scanTranslateAux cs.length cs) = some v
    rw [hm]

theorem scan_skip_term (t : TransformTerm) (hnt : isTranslateTerm t = false)
    (R : List Char) :
    scanTranslate ((renderTerm t ++ [' ']) ++ R) = scanTranslate R := by
  unfold scanTranslate
  rw [List.length_append]
  exact scanTranslateAux_append _ R _ (fun x hx hne => safeTermSuffix t hnt x hx hne R)

theorem firstTranslateArgs_cons_of_not {t : TransformTerm}
    (hnt : isTranslateTerm t = false) (l : List TransformTerm) :
    firstTranslateArgs (t :: l) = firstTranslateArgs l := by
  cases t <;> first
    | rfl
    | simp [isTranslateTerm] at hnt

theorem scanTranslate_renderTerms (ts : List TransformTerm) (h : hasTranslate ts = true) :
    scanTranslate (renderTerms ts) =
      some (some ((firstTranslateArgs ts).1 : ℚ), some ((firstTranslateArgs ts).2 : ℚ)) := by
  induction ts with
  | nil => simp [hasTranslate] at h
  | cons t rest ih =>
    by_cases htr : isTranslateTerm t = true
    · obtain ⟨tx, ty, rfl⟩ : ∃ tx ty, t = .translate tx ty := by
        cases t <;> simp_all [isTranslateTerm]
      cases rest with
      | nil =>
        apply scanTranslate_of_head_match
        · show matchTransHere ("translate(".toList ++ renderInt tx ++
            ',' :: renderInt ty ++ [')']) = _
          exact matchTransHere_translate tx ty []
        · simp [renderTerms, renderTerm_ne_nil]
      | cons r rs =>
        apply scanTranslate_of_head_match
        · show matchTransHere (renderTerm (.translate tx ty) ++
            ' ' :: renderTerms (r :: rs)) = _
          have heq : renderTerm (.translate tx ty) ++ ' ' :: renderTerms (r :: rs) =
              "translate(".toList ++ renderInt tx ++ ',' :: renderInt ty ++
                ')' :: (' ' :: renderTerms (r :: rs)) := by
            simp [renderTerm, List.append_assoc]
          rw [heq]
          exact matchTransHere_translate tx ty (' ' :: renderTerms (r :: rs))
        · simp [renderTerms, renderTerm_ne_nil]
    · have hnt : isTranslateTerm t = false := by simpa using htr
      cases rest with
      | nil =>
        simp [hasTranslate, hnt] at h
      | cons r rs =>
        have hren : renderTerms (t :: r :: rs) =
            (renderTerm t ++ [' ']) ++ renderTerms (r :: rs) := by
          show renderTerm t ++ ' ' :: renderTerms (r :: rs) = _
          simp [List.append_assoc]
        rw [hren, scan_skip_term t hnt _, firstTranslateArgs_cons_of_not hnt]
        apply ih
        simpa [hasTranslate, hnt] using h

theorem renderTerms_ne_nil_of_cons (t : TransformTerm) (rest : List TransformTerm) :
    renderTerms (t :: rest) ≠ [] := by
  cases rest with
  | nil => exact renderTerm_ne_nil t
  | cons r rs =>
    show renderTerm t ++ ' ' :: renderTerms (r :: rs) ≠ []
    simp

/-- C10: for every transform attribute string that contains a `translate(tx, ty)`
term anywhere — even with other transform functions such as `scale(…)` or
`rotate(…)` present — `extractTranslation` returns that (first) translation with
`consumed = true`; consequently (concrete second conjunct) the legacy coordinate
walk removes the whole `transform` attribute and applies only the translation,
silently discarding the non-translation components (`scale(2)` here). -/
theorem C10_extractTranslation_translate_anywhere :
    (∀ ts : List TransformTerm, hasTranslate ts = true →
      extractTranslation (some (String.mk (renderTerms ts))) =
        ⟨((firstTranslateArgs ts).1 : ℚ), ((firstTranslateArgs ts).2 : ℚ), true⟩) ∧
    normalizeLegacyCoordinates
        (.elem "svg" [] []
          [.elem "rect"
            [("x", "1"), ("y", "1"), ("width", "10"), ("height", "10"),
             ("transform", "scale(2) translate(3,4)")] [] []]) =
      .elem "svg" [("viewBox", "0 0 10 10")] []
        [.elem "rect" [("x", "0"), ("y", "0"), ("width", "10"), ("height", "10")] [] []] := by
  constructor
  · intro ts h
    have hne : renderTerms ts ≠ [] := by
      cases ts with
      | nil => simp [hasTranslate] at h
      | cons t rest => exact renderTerms_ne_nil_of_cons t rest
    have hstr : ¬ (String.mk (renderTerms ts) = "") := fun hc =>
      hne (congrArg String.data hc)
    unfold extractTranslation
    dsimp only
    rw [if_neg hstr]
    have htl : (String.mk (renderTerms ts)).toList = renderTerms ts := rfl
    rw [htl, scanTranslate_renderTerms ts h]
    rfl
  · with_unfolding_all rfl

theorem C10_witness :
    extractTranslation (some (String.mk (renderTerms
        [.scale 2, .translate 3 4]))) =
      ⟨((firstTranslateArgs [.scale 2, .translate 3 4]).1 : ℚ),
       ((firstTranslateArgs [.scale 2, .translate 3 4]).2 : ℚ), true⟩ :=
  C10_extractTranslation_translate_anywhere.1 [.scale 2, .translate 3 4] rfl

end ConvertToImage
